import Mathlib

/-!
Verification of the spatial-navigation engine.

This file is a shallow embedding of the engine found in `src/helpers.ts`
(geometry and directional ranking), `SpatialNavigation.ts` / the service class
(tree store, leaf resolution, focus controller), together with theorems about
the embedded operations.

Modelling conventions:
* JavaScript numbers are embedded as `ℚ` (the algorithms only use `+`, `-`,
  `*`, `/`, `abs`, `min`, `max` and comparisons; numeric literals such as
  `0.2` are embedded exactly as rationals).
* The object map `focusableComponents` is embedded as a `List Component`
  with lookup by `focusKey`; JavaScript object iteration order (insertion
  order) corresponds to list order.
* Per-node callbacks are not data: invoking a callback is modelled by
  emitting an event (`Ev`) naming the component, in invocation order.
  Pointer-support wiring (`onmouseenter`) and the visual debugger only touch
  the external DOM node and are omitted.
* `measureLayout` is an external synchronous layout provider; it is a
  parameter `measure : String → Layout` applied to the component's opaque
  node handle.
* Recursions of the source that are not structurally bounded
  (`smartNavigate` climbing `parentFocusKey`, `getNextFocusKey` descending
  into children, the parent-chain `while` loops) take an explicit fuel
  argument; `none` means the fuel ran out, i.e. the source would still be
  running (and diverges if no fuel suffices).
-/

namespace SpatialNav

/-- Directions, `DIRECTION_UP/DOWN/LEFT/RIGHT` from `constants.ts`. -/
inductive Dir
  | up
  | down
  | left
  | right
  deriving DecidableEq, BEq, Repr

/-- A bounding box, `FocusableComponentLayout` (the `x`/`y` duplicates of
`left`/`top` and the embedded node handle are omitted; the engine reads only
`left`, `top`, `width`, `height`). -/
structure Layout where
  left : ℚ
  top : ℚ
  width : ℚ
  height : ℚ
  deriving DecidableEq, Repr

/-- A point, used for reference corners. -/
structure PointQ where
  x : ℚ
  y : ℚ
  deriving DecidableEq, Repr

/-- The `Corners` pair from `types.ts`. -/
structure Corners where
  a : PointQ
  b : PointQ
  deriving DecidableEq, Repr

/-- Constant `ADJACENT_SLICE_THRESHOLD = 0.2` from `helpers.ts`. -/
def ADJACENT_SLICE_THRESHOLD : ℚ := 2 / 10

/-- Constant `ADJACENT_SLICE_WEIGHT = 5` from `helpers.ts`. -/
def ADJACENT_SLICE_WEIGHT : ℚ := 5

/-- Constant `DIAGONAL_SLICE_WEIGHT = 1` from `helpers.ts`. -/
def DIAGONAL_SLICE_WEIGHT : ℚ := 1

/-- Constant `MAIN_COORDINATE_WEIGHT = 5` from `helpers.ts`. -/
def MAIN_COORDINATE_WEIGHT : ℚ := 5

/-- Function `getPrimaryAxisDistance` from `helpers.ts`. -/
def getPrimaryAxisDistance (refCorners siblingCorners : Corners)
    (isVerticalDirection : Bool) : ℚ :=
  if isVerticalDirection then
    |siblingCorners.a.y - refCorners.a.y|
  else
    |siblingCorners.a.x - refCorners.a.x|

/-- Function `getSecondaryAxisDistance` from `helpers.ts`: the minimum of the
four corner-to-corner distances along the cross axis. -/
def getSecondaryAxisDistance (refCorners siblingCorners : Corners)
    (isVerticalDirection : Bool) : ℚ :=
  let refCoordinateA := if isVerticalDirection then refCorners.a.x else refCorners.a.y
  let refCoordinateB := if isVerticalDirection then refCorners.b.x else refCorners.b.y
  let siblingCoordinateA :=
    if isVerticalDirection then siblingCorners.a.x else siblingCorners.a.y
  let siblingCoordinateB :=
    if isVerticalDirection then siblingCorners.b.x else siblingCorners.b.y
  min (min (min |siblingCoordinateA - refCoordinateA| |siblingCoordinateA - refCoordinateB|)
        |siblingCoordinateB - refCoordinateA|)
    |siblingCoordinateB - refCoordinateB|

/-- Function `getRefCorners` from `helpers.ts`: the two reference corners of
the facing edge; for a sibling the edge facing back toward the origin. (The
source's unreachable `default` switch branch has no counterpart: `Dir` has
exactly the four direction values.) -/
def getRefCorners (direction : Dir) (isSibling : Bool) (layout : Layout) : Corners :=
  let itemX := layout.left
  let itemY := layout.top
  let itemWidth := layout.width
  let itemHeight := layout.height
  match direction with
  | .up =>
    let y := if isSibling then itemY + itemHeight else itemY
    ⟨⟨itemX, y⟩, ⟨itemX + itemWidth, y⟩⟩
  | .down =>
    let y := if isSibling then itemY else itemY + itemHeight
    ⟨⟨itemX, y⟩, ⟨itemX + itemWidth, y⟩⟩
  | .left =>
    let x := if isSibling then itemX + itemWidth else itemX
    ⟨⟨x, itemY⟩, ⟨x, itemY + itemHeight⟩⟩
  | .right =>
    let x := if isSibling then itemX else itemX + itemWidth
    ⟨⟨x, itemY⟩, ⟨x, itemY + itemHeight⟩⟩

/-- Function `getIsAdjacentSlice` from `helpers.ts`: the candidate intersects
the origin's reference segment on the cross axis by at least the threshold
(`intersectionLength >= thresholdDistance`). -/
def getIsAdjacentSlice (refCorners siblingCorners : Corners)
    (isVerticalDirection : Bool) : Bool :=
  let refCoordinateA := if isVerticalDirection then refCorners.a.x else refCorners.a.y
  let refCoordinateB := if isVerticalDirection then refCorners.b.x else refCorners.b.y
  let siblingCoordinateA :=
    if isVerticalDirection then siblingCorners.a.x else siblingCorners.a.y
  let siblingCoordinateB :=
    if isVerticalDirection then siblingCorners.b.x else siblingCorners.b.y
  let thresholdDistance := (refCoordinateB - refCoordinateA) * ADJACENT_SLICE_THRESHOLD
  let intersectionLength :=
    max 0 (min refCoordinateB siblingCoordinateB - max refCoordinateA siblingCoordinateA)
  decide (thresholdDistance ≤ intersectionLength)

/-- A focus node, `FocusableComponent` from `types.ts` (callback fields and
`pointerSupport` are external effects and are not tree data; `node` is the
opaque handle passed to the layout provider). -/
structure Component where
  focusKey : String
  node : String
  parentFocusKey : String
  focusable : Bool
  isFocusBoundary : Bool
  saveLastFocusedChild : Bool
  trackChildren : Bool
  autoRestoreFocus : Bool
  preferredChildFocusKey : Option String
  lastFocusedChildKey : Option String
  layout : Layout
  layoutUpdated : Bool
  deriving DecidableEq, Repr

/-- The iteratee of the `sortBy` call inside `sortSiblingsByPriority`: the
priority value computed for one sibling. -/
def siblingPriority (direction : Dir) (refCorners : Corners)
    (isVerticalDirection : Bool) (sibling : Component) : ℚ :=
  let siblingCorners := getRefCorners direction true sibling.layout
  let isAdjacentSlice := getIsAdjacentSlice refCorners siblingCorners isVerticalDirection
  let primaryAxisDistance :=
    if isAdjacentSlice then
      getPrimaryAxisDistance refCorners siblingCorners isVerticalDirection
    else
      getSecondaryAxisDistance refCorners siblingCorners isVerticalDirection
  let secondaryAxisDistance :=
    if isAdjacentSlice then
      getSecondaryAxisDistance refCorners siblingCorners isVerticalDirection
    else
      getPrimaryAxisDistance refCorners siblingCorners isVerticalDirection
  let totalDistancePoints :=
    primaryAxisDistance * MAIN_COORDINATE_WEIGHT + secondaryAxisDistance
  (totalDistancePoints + 1) /
    (if isAdjacentSlice then ADJACENT_SLICE_WEIGHT else DIAGONAL_SLICE_WEIGHT)

/-- The test `direction === DIRECTION_DOWN || direction === DIRECTION_UP`. -/
def isVerticalDir (direction : Dir) : Bool :=
  direction == Dir.down || direction == Dir.up

/-- Ordering by priority, the comparison realised by lodash `sortBy` in
`sortSiblingsByPriority`. -/
def priorityLE (direction : Dir) (currentLayout : Layout) (s₁ s₂ : Component) : Prop :=
  siblingPriority direction (getRefCorners direction false currentLayout)
      (isVerticalDir direction) s₁ ≤
    siblingPriority direction (getRefCorners direction false currentLayout)
      (isVerticalDir direction) s₂

instance (direction : Dir) (currentLayout : Layout) :
    DecidableRel (priorityLE direction currentLayout) := fun s₁ s₂ =>
  inferInstanceAs (Decidable (_ ≤ _))

/-- Function `sortSiblingsByPriority` from `helpers.ts`: lodash `sortBy` is a
stable ascending sort by the iteratee, so it is embedded as the stable
`List.insertionSort` by `priorityLE`. -/
def sortSiblingsByPriority (siblings : List Component) (currentLayout : Layout)
    (direction : Dir) : List Component :=
  List.insertionSort (priorityLE direction currentLayout) siblings

/-! ### The focusable-component store -/

/-- The `focusableComponents` map, in insertion order. -/
abbrev Components := List Component

/-- The map read `this.focusableComponents[focusKey]`. -/
def findComp (components : Components) (focusKey : String) : Option Component :=
  components.find? (fun c => c.focusKey == focusKey)

/-- In-place mutation of the component stored under `focusKey` (a no-op when
the key is absent, like mutating `undefined` guards in the source). -/
def mapComp (components : Components) (focusKey : String)
    (f : Component → Component) : Components :=
  components.map (fun c => if c.focusKey == focusKey then f c else c)

/-- Method `saveLastFocusedChildKey(component, focusKey)`: when the component
exists, store `focusKey` as its `lastFocusedChildKey` (unconditionally — there
is no `saveLastFocusedChild` or boundary check here). -/
def saveLastFocusedChildKey (components : Components) (parentKey focusKey : String) :
    Components :=
  mapComp components parentKey (fun c => { c with lastFocusedChildKey := some focusKey })

/-- Method `isFocusableComponent`: the key is registered. -/
def isFocusableComponent (components : Components) (focusKey : String) : Bool :=
  (findComp components focusKey).isSome

/-- Method `isParticipatingFocusableComponent`: registered and `focusable`. -/
def isParticipatingFocusableComponent (components : Components) (focusKey : String) :
    Bool :=
  match findComp components focusKey with
  | some c => c.focusable
  | none => false

/-- The child filter used by `getNextFocusKey`: registered components whose
`parentFocusKey` matches and which are `focusable`. -/
def childrenOf (components : Components) (focusKey : String) : List Component :=
  components.filter (fun c => c.parentFocusKey == focusKey && c.focusable)

/-- Method `updateLayout`, instrumented: besides the updated store it reports
whether the external layout provider was queried. Returns unchanged without
querying when the component is missing or its `layoutUpdated` flag is set;
otherwise measures the node and stores the new box. Note the source never
sets `layoutUpdated` back to `true`. -/
def updateLayoutRun (measure : String → Layout) (components : Components)
    (focusKey : String) : Components × Bool :=
  match findComp components focusKey with
  | none => (components, false)
  | some component =>
    if component.layoutUpdated then (components, false)
    else (mapComp components focusKey (fun c => { c with layout := measure c.node }), true)

/-- Method `updateLayout`, state effect only. -/
def updateLayout (measure : String → Layout) (components : Components)
    (focusKey : String) : Components :=
  (updateLayoutRun measure components focusKey).1

/-- Helper `getChildClosestToOrigin` from `helpers.ts`: lodash `sortBy` the
children by `|left| + |top|` and take the first. -/
def closestLE (c₁ c₂ : Component) : Prop :=
  |c₁.layout.left| + |c₁.layout.top| ≤ |c₂.layout.left| + |c₂.layout.top|

instance : DecidableRel closestLE := fun c₁ c₂ =>
  inferInstanceAs (Decidable (_ ≤ _))

def getChildClosestToOrigin (children : List Component) : Option Component :=
  (List.insertionSort closestLE children).head?

/-! ### Directional navigation (`smartNavigate` in `helpers.ts`) -/

/-- The inner `isNodeFocusable(dir, from, to)` eligibility check of
`smartNavigate`: `to` is focusable, is not `from`, shares `from`'s
`parentFocusKey`, and lies strictly past `from` using the facing edges
(boundary touch allowed). -/
def isNodeFocusableB (dir : Dir) (fromC toC : Component) : Bool :=
  if !toC.focusable then false
  else if fromC.focusKey == toC.focusKey then false
  else if fromC.parentFocusKey != toC.parentFocusKey then false
  else
    match dir with
    | .left => decide (toC.layout.left + toC.layout.width ≤ fromC.layout.left)
    | .right => decide (fromC.layout.left + fromC.layout.width ≤ toC.layout.left)
    | .down => decide (fromC.layout.top + fromC.layout.height ≤ toC.layout.top)
    | .up => decide (toC.layout.top + toC.layout.height ≤ fromC.layout.top)

/-- Function `smartNavigate`: returns the updated store together with the
selected focus key (`none` when the function returns without selecting; the
source then never calls `setFocus`). Recursion climbs `parentFocusKey`, so it
is bounded by fuel; the overall `none` means the fuel ran out. On the branch
with no eligible sibling the source stores the origin as the parent's
`lastFocusedChildKey` (when the parent exists) before retrying at the
parent. -/
def smartNavigateFuel : Nat → Components → Dir → String →
    Option (Components × Option String)
  | 0, _, _, _ => none
  | fuel + 1, components, direction, focusKey =>
    match findComp components focusKey with
    | none => some (components, none)
    | some fromComponent =>
      if fromComponent.isFocusBoundary then some (components, none)
      else
        let siblings := components.filter (fun c => isNodeFocusableB direction fromComponent c)
        let sorted := sortSiblingsByPriority siblings fromComponent.layout direction
        match sorted.head? with
        | some nextComponent => some (components, some nextComponent.focusKey)
        | none =>
          let components₁ :=
            saveLastFocusedChildKey components fromComponent.parentFocusKey focusKey
          smartNavigateFuel fuel components₁ direction fromComponent.parentFocusKey

/-! ### Leaf resolution (`getNextFocusKey`) -/

/-- One unfolding of `getNextFocusKey`'s body: return the target, recurse
into a child key (with the store as mutated by the layout refresh of the
coordinate branch), or get stuck (the impossible branch where a nonempty
child list sorts to nothing; see `leafNext_ne_stuck`). -/
inductive LeafNext where
  | ret : LeafNext
  | step : Components → String → LeafNext
  | stuck : LeafNext
  deriving DecidableEq, Repr

/-- The guard on `lastFocusedChildKey` in `getNextFocusKey`: set, the
component saves its last focused child, and the key is a live focusable
participant. -/
def lastFocusedGuard (components : Components) (targetComponent : Component) :
    Option String :=
  match targetComponent.lastFocusedChildKey with
  | some k =>
    if targetComponent.saveLastFocusedChild &&
        isParticipatingFocusableComponent components k then some k else none
  | none => none

/-- The guard on `preferredChildFocusKey` in `getNextFocusKey`: set and a
live focusable participant. -/
def preferredGuard (components : Components) (targetComponent : Component) :
    Option String :=
  match targetComponent.preferredChildFocusKey with
  | some k => if isParticipatingFocusableComponent components k then some k else none
  | none => none

/-- The body of `getNextFocusKey(targetFocusKey)` up to its recursive call:
unknown target or no focusable children returns the target unchanged;
otherwise recurse into the guarded `lastFocusedChildKey`, else the guarded
`preferredChildFocusKey`, else refresh the children's layouts and recurse
into the child closest to the page origin. -/
def leafNext (measure : String → Layout) (components : Components)
    (targetFocusKey : String) : LeafNext :=
  match findComp components targetFocusKey with
  | none => .ret
  | some targetComponent =>
    let children := childrenOf components targetFocusKey
    if children.isEmpty then .ret
    else
      match lastFocusedGuard components targetComponent with
      | some k => .step components k
      | none =>
        match preferredGuard components targetComponent with
        | some k => .step components k
        | none =>
          let components₁ :=
            children.foldl (fun acc c => updateLayout measure acc c.focusKey) components
          let children₁ := childrenOf components₁ targetFocusKey
          match getChildClosestToOrigin children₁ with
          | some child => .step components₁ child.focusKey
          | none => .stuck

/-- Method `getNextFocusKey`, fuelled: the returned pair is the store (the
coordinate branch refreshes child layouts) and the resolved key. -/
def getNextFocusKeyFuel (measure : String → Layout) :
    Nat → Components → String → Option (Components × String)
  | 0, _, _ => none
  | fuel + 1, components, targetFocusKey =>
    match leafNext measure components targetFocusKey with
    | .ret => some (components, targetFocusKey)
    | .step components₁ nextKey => getNextFocusKeyFuel measure fuel components₁ nextKey
    | .stuck => none

/-! ### The focus controller (`setFocus` and friends) -/

/-- A callback invocation, identified by the component's focus key:
`onUpdateFocus` with its boolean, `onFocus`, `onBlur` (also used by the
intermediate-node variants, which call the same per-node callbacks), and
`onUpdateHasFocusedChild` with its boolean. -/
inductive Ev where
  | updateFocus : String → Bool → Ev
  | onFocus : String → Ev
  | onBlur : String → Ev
  | updateHasFocusedChild : String → Bool → Ev
  deriving DecidableEq, Repr

/-- The service-instance state read and written by the focus controller:
the component store, `this.focusKey` (a string or `null`),
`this.parentsHavingFocusedChild`, and the `enabled` flag. -/
structure NavState where
  components : Components
  focusKey : Option String
  parentsHavingFocusedChild : List String
  enabled : Bool
  deriving Repr

/-- Method `setCurrentFocusedKey(newFocusKey, focusDetails)`. When a
registered component currently holds focus and the new key differs, its
parent records it as last focused child, then `onUpdateFocus(false)` and
`onBlur` fire (the blur argument re-measures the old component through
`getNodeLayoutByFocusKey`). The focus key is then set; when the new key is
registered, `onUpdateFocus(true)` and `onFocus` fire (again re-measuring).
Note there is no early return when `newFocusKey` equals the current key: the
focus-side block still runs. -/
def setCurrentFocusedKey (measure : String → Layout) (st : NavState)
    (newFocusKey : String) : NavState × List Ev :=
  let blurred : Components × List Ev :=
    match st.focusKey with
    | some oldKey =>
      match findComp st.components oldKey with
      | some oldComponent =>
        if newFocusKey = oldKey then (st.components, [])
        else
          let cs₁ := saveLastFocusedChildKey st.components oldComponent.parentFocusKey oldKey
          let cs₂ := updateLayout measure cs₁ oldKey
          (cs₂, [Ev.updateFocus oldKey false, Ev.onBlur oldKey])
      | none => (st.components, [])
    | none => (st.components, [])
  match findComp blurred.1 newFocusKey with
  | some _ =>
    let cs₃ := updateLayout measure blurred.1 newFocusKey
    ({ st with components := cs₃, focusKey := some newFocusKey },
      blurred.2 ++ [Ev.updateFocus newFocusKey true, Ev.onFocus newFocusKey])
  | none =>
    ({ st with components := blurred.1, focusKey := some newFocusKey }, blurred.2)

/-- The parent-collecting `while` loop of `updateParentsHasFocusedChild`:
climb `parentFocusKey` from the given component, collecting the keys of the
registered parents. The loop is unbounded in the source (it diverges on a
`parentFocusKey` cycle), hence the fuel. -/
def collectParentsAux (components : Components) :
    Nat → Option Component → Option (List String)
  | _, none => some []
  | 0, some _ => none
  | fuel + 1, some currentComponent =>
    match findComp components currentComponent.parentFocusKey with
    | none => some []
    | some parentComponent =>
      (collectParentsAux components fuel (some parentComponent)).map
        (fun rest => parentComponent.focusKey :: rest)

/-- The per-parent body of the `parentsToRemoveFlag` loop: fire
`onUpdateHasFocusedChild(false)` when the parent tracks children, then
`onIntermediateNodeBecameBlurred` fires `onBlur` when the parent is a live
focusable participant (re-measuring it). -/
def intermediateBlurStep (measure : String → Layout) (acc : Components × List Ev)
    (parentFocusKey : String) : Components × List Ev :=
  let evs₁ :=
    match findComp acc.1 parentFocusKey with
    | some p =>
      if p.trackChildren then acc.2 ++ [Ev.updateHasFocusedChild parentFocusKey false]
      else acc.2
    | none => acc.2
  if isParticipatingFocusableComponent acc.1 parentFocusKey then
    (updateLayout measure acc.1 parentFocusKey, evs₁ ++ [Ev.onBlur parentFocusKey])
  else (acc.1, evs₁)

/-- The per-parent body of the `parentsToAddFlag` loop, symmetric to
`intermediateBlurStep` with `onUpdateHasFocusedChild(true)` and `onFocus`. -/
def intermediateFocusStep (measure : String → Layout) (acc : Components × List Ev)
    (parentFocusKey : String) : Components × List Ev :=
  let evs₁ :=
    match findComp acc.1 parentFocusKey with
    | some p =>
      if p.trackChildren then acc.2 ++ [Ev.updateHasFocusedChild parentFocusKey true]
      else acc.2
    | none => acc.2
  if isParticipatingFocusableComponent acc.1 parentFocusKey then
    (updateLayout measure acc.1 parentFocusKey, evs₁ ++ [Ev.onFocus parentFocusKey])
  else (acc.1, evs₁)

/-- Method `updateParentsHasFocusedChild(focusKey, focusDetails)`: collect
the ancestor chain, diff it against the stored
`parentsHavingFocusedChild` (lodash `difference` keeps first-list order),
fire the leave/enter callbacks, and store the new chain. -/
def updateParentsHasFocusedChild (measure : String → Layout) (fuel : Nat)
    (st : NavState) (focusKey : String) : Option (NavState × List Ev) :=
  (collectParentsAux st.components fuel (findComp st.components focusKey)).map
    fun parents =>
      let parentsToRemoveFlag :=
        st.parentsHavingFocusedChild.filter (fun k => !parents.contains k)
      let parentsToAddFlag :=
        parents.filter (fun k => !st.parentsHavingFocusedChild.contains k)
      let removed := parentsToRemoveFlag.foldl (intermediateBlurStep measure)
        (st.components, [])
      let added := parentsToAddFlag.foldl (intermediateFocusStep measure) removed
      ({ st with components := added.1, parentsHavingFocusedChild := parents },
        added.2)

/-- The `while` loop of `updateParentsLastFocusedChild`: climb from the last
focused component, recording each component as its parent's
`lastFocusedChildKey`. Fuelled like `collectParentsAux`. -/
def updLastAux : Nat → Components → Option Component → Option Components
  | _, cs, none => some cs
  | 0, _, some _ => none
  | fuel + 1, cs, some currentComponent =>
    match findComp cs currentComponent.parentFocusKey with
    | none => some cs
    | some _ =>
      let cs₁ :=
        saveLastFocusedChildKey cs currentComponent.parentFocusKey
          currentComponent.focusKey
      updLastAux fuel cs₁ (findComp cs₁ currentComponent.parentFocusKey)

/-- Method `updateParentsLastFocusedChild(focusKey)` (the argument is the
previous focus key, possibly `null`). -/
def updateParentsLastFocusedChild (fuel : Nat) (components : Components)
    (focusKey : Option String) : Option Components :=
  updLastAux fuel components (focusKey.bind (findComp components))

/-- Method `setFocus(focusKey, focusDetails)`: no-op while not enabled;
otherwise resolve the target through `getNextFocusKey`, commit through
`setCurrentFocusedKey`, refresh the has-focused-child bookkeeping for the
new key, and record the previous focus key's branch as last focused
children. Overall `none` means some unbounded loop of the source ran out of
fuel. -/
def setFocus (measure : String → Layout) (fuel : Nat) (st : NavState)
    (focusKey : String) : Option (NavState × List Ev) :=
  if !st.enabled then some (st, [])
  else
    let lastFocusedKey := st.focusKey
    match getNextFocusKeyFuel measure fuel st.components focusKey with
    | none => none
    | some (cs₁, newFocusKey) =>
      let committed := setCurrentFocusedKey measure { st with components := cs₁ } newFocusKey
      match updateParentsHasFocusedChild measure fuel committed.1 newFocusKey with
      | none => none
      | some (st₃, evs₂) =>
        match updateParentsLastFocusedChild fuel st₃.components lastFocusedKey with
        | none => none
        | some cs₄ =>
          some ({ st₃ with components := cs₄ }, committed.2 ++ evs₂)

/-! ### Tree mutation (`addFocusable` siblings) -/

/-- Method `removeFocusable({focusKey})`: delete the component, clear the
former parent's `lastFocusedChildKey` when it pointed at the removed key,
re-parent the removed component's focusable children to the former parent,
and, when the removed component held the current focus and the former parent
exists with `autoRestoreFocus`, trigger a focus transition to the parent
(the source then calls `setFocus(parentFocusKey)`; the triggered target is
returned here). -/
def removeFocusable (components : Components) (currentFocusKey : Option String)
    (focusKey : String) : Components × Option String :=
  match findComp components focusKey with
  | none => (components, none)
  | some componentToRemove =>
    let parentFocusKey := componentToRemove.parentFocusKey
    let cs₁ := components.filter (fun c => c.focusKey != focusKey)
    let isFocused := currentFocusKey = some focusKey
    let cs₂ :=
      match findComp cs₁ parentFocusKey with
      | some parentComponent =>
        if parentComponent.lastFocusedChildKey = some focusKey then
          mapComp cs₁ parentFocusKey (fun c => { c with lastFocusedChildKey := none })
        else cs₁
      | none => cs₁
    let cs₃ := cs₂.map (fun c =>
      if c.parentFocusKey == focusKey && c.focusable then
        { c with parentFocusKey := parentFocusKey }
      else c)
    let trigger :=
      match findComp cs₁ parentFocusKey with
      | some parentComponent =>
        if isFocused && parentComponent.autoRestoreFocus then some parentFocusKey
        else none
      | none => none
    (cs₃, trigger)

/-- The update payload, `FocusableComponentUpdatePayload` from `types.ts`:
`preferredChildFocusKey` is optional there and `node` is guarded by a
truthiness check in the source, so both are `Option`; `focusable` and
`isFocusBoundary` are required fields. Callback fields (also replaced
unconditionally by the source) and `pointerSupport` are external and
omitted. -/
structure UpdatePayload where
  node : Option String
  preferredChildFocusKey : Option String
  focusable : Bool
  isFocusBoundary : Bool
  deriving DecidableEq, Repr

/-- Method `updateFocusable(focusKey, payload)`: when the component exists,
assign `preferredChildFocusKey`, `focusable` and `isFocusBoundary` from the
payload unconditionally, and `node` only when supplied. -/
def updateFocusable (components : Components) (focusKey : String)
    (payload : UpdatePayload) : Components :=
  match findComp components focusKey with
  | none => components
  | some _ =>
    mapComp components focusKey (fun component =>
      let component₁ :=
        { component with
          preferredChildFocusKey := payload.preferredChildFocusKey
          focusable := payload.focusable
          isFocusBoundary := payload.isFocusBoundary }
      match payload.node with
      | some n => { component₁ with node := n }
      | none => component₁)

/-! ### General lemmas about the store -/

/-- A found component's key is the searched key. -/
theorem findComp_key {components : Components} {k : String} {c : Component}
    (h : findComp components k = some c) : c.focusKey = k := by
  have := List.find?_some h
  simpa using this

/-- Lookup commutes with a key-preserving map of the store. -/
theorem findComp_map (components : Components) (g : Component → Component)
    (hg : ∀ c, (g c).focusKey = c.focusKey) (j : String) :
    findComp (components.map g) j = (findComp components j).map g := by
  induction components with
  | nil => rfl
  | cons c cs ih =>
    by_cases hc : c.focusKey = j
    · simp [findComp, List.find?_cons, hg, hc]
    · simp only [findComp, List.map_cons] at *
      rw [List.find?_cons_of_neg, List.find?_cons_of_neg] <;>
        simp_all [hg]

/-- Lookup after `mapComp`. -/
theorem findComp_mapComp (components : Components) (k : String)
    (f : Component → Component) (hf : ∀ c, (f c).focusKey = c.focusKey) (j : String) :
    findComp (mapComp components k f) j =
      (findComp components j).map (fun c => if c.focusKey == k then f c else c) := by
  unfold mapComp
  exact findComp_map components _ (fun c => by by_cases h : c.focusKey = k <;> simp [h, hf]) j

/-- `mapComp` is the identity when the key is absent. -/
theorem mapComp_not_found {components : Components} {k : String}
    (f : Component → Component) (h : findComp components k = none) :
    mapComp components k f = components := by
  unfold findComp at h
  rw [List.find?_eq_none] at h
  unfold mapComp
  conv_rhs => rw [← List.map_id components]
  exact List.map_congr_left (fun c hc => by simp [h c hc])

/-- Lookup after a `lastFocusedChildKey` write. -/
theorem findComp_saveLast (components : Components) (a b j : String) :
    findComp (saveLastFocusedChildKey components a b) j =
      (findComp components j).map
        (fun c => if c.focusKey == a then { c with lastFocusedChildKey := some b } else c) := by
  unfold saveLastFocusedChildKey
  exact findComp_mapComp components a
    (fun c => { c with lastFocusedChildKey := some b }) (fun c => rfl) j

/-! ### Claim C1: the directional ranking -/

/-- Spec-side scoring of one candidate, following the words of claim C1:
classify as adjacent slice iff the cross-axis overlap of the candidate's
reference segment with the origin's is at least 20% of the origin's
cross-axis extent; swap primary and secondary axis distances for diagonal
candidates; score `(primaryAxisDistance*5 + secondaryAxisDistance + 1)`
divided by 5 when adjacent and by 1 when diagonal. -/
def claimC1Priority (direction : Dir) (refCorners : Corners)
    (isVerticalDirection : Bool) (sibling : Component) : ℚ :=
  let siblingCorners := getRefCorners direction true sibling.layout
  let refCoordinateA := if isVerticalDirection then refCorners.a.x else refCorners.a.y
  let refCoordinateB := if isVerticalDirection then refCorners.b.x else refCorners.b.y
  let siblingCoordinateA :=
    if isVerticalDirection then siblingCorners.a.x else siblingCorners.a.y
  let siblingCoordinateB :=
    if isVerticalDirection then siblingCorners.b.x else siblingCorners.b.y
  let crossAxisExtent := refCoordinateB - refCoordinateA
  let overlap :=
    max 0 (min refCoordinateB siblingCoordinateB - max refCoordinateA siblingCoordinateA)
  let primary := getPrimaryAxisDistance refCorners siblingCorners isVerticalDirection
  let secondary := getSecondaryAxisDistance refCorners siblingCorners isVerticalDirection
  if crossAxisExtent * (20 / 100) ≤ overlap then (primary * 5 + secondary + 1) / 5
  else (secondary * 5 + primary + 1) / 1

/-- C1. For every origin layout, direction and candidate list, the embedded
ranking computes each candidate's priority exactly as the claim's formula
(`claimC1Priority`: adjacency iff cross-axis overlap is at least 20% of the
origin's cross-axis extent, axis distances swapped for diagonal candidates,
score `(primary*5 + secondary + 1)` divided by 5 when adjacent else by 1);
the candidates are sorted ascending by this score (a stable sort, as lodash
`sortBy`), and `smartNavigate` selects the first of the sorted list. -/
theorem claim_C1 :
    (∀ direction refCorners isVerticalDirection sibling,
        siblingPriority direction refCorners isVerticalDirection sibling =
          claimC1Priority direction refCorners isVerticalDirection sibling) ∧
    (∀ siblings currentLayout direction,
        List.Perm (sortSiblingsByPriority siblings currentLayout direction) siblings ∧
        List.Pairwise (priorityLE direction currentLayout)
          (sortSiblingsByPriority siblings currentLayout direction)) ∧
    (∀ fuel components direction focusKey fromComponent nextComponent,
        findComp components focusKey = some fromComponent →
        fromComponent.isFocusBoundary = false →
        (sortSiblingsByPriority
            (components.filter (fun c => isNodeFocusableB direction fromComponent c))
            fromComponent.layout direction).head? = some nextComponent →
        smartNavigateFuel (fuel + 1) components direction focusKey =
          some (components, some nextComponent.focusKey)) := by
  refine ⟨?_, ?_, ?_⟩
  · intro direction refCorners isVerticalDirection sibling
    have h : ADJACENT_SLICE_THRESHOLD = 20 / 100 := by
      norm_num [ADJACENT_SLICE_THRESHOLD]
    simp only [siblingPriority, claimC1Priority, getIsAdjacentSlice, h,
      ADJACENT_SLICE_WEIGHT, DIAGONAL_SLICE_WEIGHT, MAIN_COORDINATE_WEIGHT,
      decide_eq_true_eq]
    split_ifs <;> rfl
  · intro siblings currentLayout direction
    constructor
    · exact List.perm_insertionSort _ _
    · haveI : IsTotal Component (priorityLE direction currentLayout) :=
        ⟨fun a b => le_total _ _⟩
      haveI : IsTrans Component (priorityLE direction currentLayout) :=
        ⟨fun a b c h₁ h₂ => le_trans h₁ h₂⟩
      exact List.sorted_insertionSort _ _
  · intro fuel components direction focusKey fromComponent nextComponent hfind hbound hhead
    simp only [smartNavigateFuel, hfind, hbound, sortSiblingsByPriority] at *
    simp [hhead]

def w1A : Component :=
  { focusKey := "A", node := "A", parentFocusKey := "P", focusable := true,
    isFocusBoundary := false, saveLastFocusedChild := true, trackChildren := false,
    autoRestoreFocus := false, preferredChildFocusKey := none,
    lastFocusedChildKey := none, layout := ⟨0, 0, 10, 10⟩, layoutUpdated := true }

def w1B : Component := { w1A with focusKey := "B", node := "B", layout := ⟨20, 0, 10, 10⟩ }

def w1C : Component := { w1A with focusKey := "C", node := "C", layout := ⟨0, 20, 10, 10⟩ }

/-- Witness for C1 on the spec's scenario (siblings A(0,0,10,10),
B(20,0,10,10), C(0,20,10,10); direction right from A selects B). -/
theorem claim_C1_witness :
    findComp [w1A, w1B, w1C] "A" = some w1A ∧
    w1A.isFocusBoundary = false ∧
    (sortSiblingsByPriority
        ([w1A, w1B, w1C].filter (fun c => isNodeFocusableB .right w1A c))
        w1A.layout .right).head? = some w1B ∧
    smartNavigateFuel 1 [w1A, w1B, w1C] .right "A" =
      some ([w1A, w1B, w1C], some "B") :=
  ⟨by with_unfolding_all decide, rfl, by with_unfolding_all decide,
    claim_C1.2.2 0 [w1A, w1B, w1C] .right "A" w1A w1B
      (by with_unfolding_all decide) rfl (by with_unfolding_all decide)⟩

/-! ### Claim C10: a boundary origin suppresses navigation -/

/-- C10. When the component at the origin focus key itself has
`isFocusBoundary` set, `smartNavigate` returns immediately: the store is
returned unchanged and nothing is selected (so no `setFocus` call, no
callbacks, no `lastFocusedChildKey` write). -/
theorem claim_C10 : ∀ fuel components direction focusKey fromComponent,
    findComp components focusKey = some fromComponent →
    fromComponent.isFocusBoundary = true →
    smartNavigateFuel (fuel + 1) components direction focusKey =
      some (components, none) := by
  intro fuel components direction focusKey fromComponent hfind hbound
  simp [smartNavigateFuel, hfind, hbound]

def w10X : Component :=
  { focusKey := "X", node := "X", parentFocusKey := "P", focusable := true,
    isFocusBoundary := true, saveLastFocusedChild := true, trackChildren := false,
    autoRestoreFocus := false, preferredChildFocusKey := none,
    lastFocusedChildKey := none, layout := ⟨0, 0, 10, 10⟩, layoutUpdated := true }

def w10Y : Component :=
  { w10X with
    focusKey := "Y"
    node := "Y"
    isFocusBoundary := false
    layout := ⟨20, 0, 10, 10⟩ }

/-- Witness for C10: a boundary origin with an otherwise eligible sibling
still navigates nowhere. -/
theorem claim_C10_witness :
    findComp [w10X, w10Y] "X" = some w10X ∧
    w10X.isFocusBoundary = true ∧
    smartNavigateFuel 4 [w10X, w10Y] .right "X" = some ([w10X, w10Y], none) :=
  ⟨by with_unfolding_all decide, rfl,
    claim_C10 3 [w10X, w10Y] .right "X" w10X (by with_unfolding_all decide) rfl⟩

/-! ### Claim C3: climbing when no eligible candidate exists -/

/-- C3, amended. When the origin exists, is not itself a boundary, and has no
eligible sibling, `smartNavigate` records the origin as the parent's
`lastFocusedChildKey` whenever the parent exists — including when the parent
is a focus boundary, which the original claim called a pure no-op — and
retries rooted at the parent with the same direction. When the parent does
not exist the move is a genuine no-op (store unchanged, nothing selected);
when the parent is a boundary, the retry stops immediately but the recorded
`lastFocusedChildKey` write remains. -/
theorem claim_C3 : ∀ fuel components direction focusKey fromComponent,
    findComp components focusKey = some fromComponent →
    fromComponent.isFocusBoundary = false →
    (sortSiblingsByPriority
        (components.filter (fun c => isNodeFocusableB direction fromComponent c))
        fromComponent.layout direction).head? = none →
    (smartNavigateFuel (fuel + 1) components direction focusKey =
        smartNavigateFuel fuel
          (saveLastFocusedChildKey components fromComponent.parentFocusKey focusKey)
          direction fromComponent.parentFocusKey) ∧
    (findComp components fromComponent.parentFocusKey = none →
        saveLastFocusedChildKey components fromComponent.parentFocusKey focusKey =
          components ∧
        smartNavigateFuel (fuel + 2) components direction focusKey =
          some (components, none)) ∧
    (∀ parentComponent,
        findComp components fromComponent.parentFocusKey = some parentComponent →
        parentComponent.isFocusBoundary = true →
        smartNavigateFuel (fuel + 2) components direction focusKey =
          some (saveLastFocusedChildKey components fromComponent.parentFocusKey focusKey,
            none)) := by
  intro fuel components direction focusKey fromComponent hfind hbound hempty
  have hstep : ∀ f, smartNavigateFuel (f + 1) components direction focusKey =
      smartNavigateFuel f
        (saveLastFocusedChildKey components fromComponent.parentFocusKey focusKey)
        direction fromComponent.parentFocusKey := by
    intro f
    simp only [smartNavigateFuel, hfind, hbound, sortSiblingsByPriority] at *
    simp [hempty]
  refine ⟨hstep fuel, ?_, ?_⟩
  · intro hpar
    have hid := mapComp_not_found
      (fun c => { c with lastFocusedChildKey := some focusKey }) hpar
    refine ⟨hid, ?_⟩
    rw [show fuel + 2 = (fuel + 1) + 1 by omega, hstep (fuel + 1)]
    unfold saveLastFocusedChildKey
    rw [hid]
    simp [smartNavigateFuel, hpar]
  · intro parentComponent hpar hpbound
    rw [show fuel + 2 = (fuel + 1) + 1 by omega, hstep (fuel + 1)]
    have hkey : parentComponent.focusKey = fromComponent.parentFocusKey :=
      findComp_key hpar
    have hfind' : findComp
        (saveLastFocusedChildKey components fromComponent.parentFocusKey focusKey)
        fromComponent.parentFocusKey =
        some { parentComponent with lastFocusedChildKey := some focusKey } := by
      unfold saveLastFocusedChildKey
      rw [findComp_mapComp components fromComponent.parentFocusKey
        (fun c => { c with lastFocusedChildKey := some focusKey }) (fun c => rfl)
        fromComponent.parentFocusKey, hpar]
      simp [hkey]
    simp [smartNavigateFuel, hfind', hpbound]

def c3O : Component :=
  { focusKey := "O", node := "O", parentFocusKey := "P", focusable := true,
    isFocusBoundary := false, saveLastFocusedChild := true, trackChildren := false,
    autoRestoreFocus := false, preferredChildFocusKey := none,
    lastFocusedChildKey := none, layout := ⟨0, 0, 10, 10⟩, layoutUpdated := true }

def c3P : Component :=
  { c3O with
    focusKey := "P"
    node := "P"
    parentFocusKey := "SN:ROOT"
    isFocusBoundary := true }

/-- Counterexample to C3 as stated: origin `O` has no eligible sibling and
its parent `P` is a focus boundary. The claim says the move is a no-op with
all state unchanged, but the run records `O` as `P`'s `lastFocusedChildKey`
(it was `none` before). -/
theorem claim_C3_counterexample :
    (findComp [c3O, c3P] "P").map (·.lastFocusedChildKey) = some none ∧
    (smartNavigateFuel 5 [c3O, c3P] .left "O").map
        (fun r => (findComp r.1 "P").map (·.lastFocusedChildKey)) =
      some (some (some "O")) := by
  constructor
  · with_unfolding_all decide
  · with_unfolding_all decide

/-- Witness for C3 (amended) at the boundary-parent state: the run ends with
the recorded store and no selection. -/
theorem claim_C3_witness :
    smartNavigateFuel 5 [c3O, c3P] .left "O" =
      some (saveLastFocusedChildKey [c3O, c3P] "P" "O", none) :=
  (claim_C3 3 [c3O, c3P] .left "O" c3O (by with_unfolding_all decide) rfl
      (by with_unfolding_all decide)).2.2 c3P (by with_unfolding_all decide) rfl

/-! ### Claim C2: validity of the selected candidate -/

/-- Forget the `lastFocusedChildKey` field (the only component field
`smartNavigate` writes while climbing). -/
def eraseLast (c : Component) : Component := { c with lastFocusedChildKey := none }

/-- `smartNavigate` changes components only in their `lastFocusedChildKey`
field. -/
theorem smartNavigate_eraseLast : ∀ fuel components direction focusKey result,
    smartNavigateFuel fuel components direction focusKey = some result →
    ∀ j, (findComp result.1 j).map eraseLast = (findComp components j).map eraseLast := by
  intro fuel
  induction fuel with
  | zero => intro components direction focusKey result h; exact absurd h (by simp [smartNavigateFuel])
  | succ fuel ih =>
    intro components direction focusKey result h j
    rw [smartNavigateFuel] at h
    cases hfc : findComp components focusKey with
    | none => rw [hfc] at h; cases h; rfl
    | some fromComponent =>
      rw [hfc] at h
      dsimp only at h
      by_cases hb : fromComponent.isFocusBoundary = true
      · rw [if_pos hb] at h; cases h; rfl
      · rw [if_neg hb] at h
        cases hh : (sortSiblingsByPriority
            (components.filter (fun c => isNodeFocusableB direction fromComponent c))
            fromComponent.layout direction).head? with
        | some nextComponent => rw [hh] at h; cases h; rfl
        | none =>
          rw [hh] at h
          have step := ih _ direction fromComponent.parentFocusKey result h j
          rw [step, findComp_saveLast]
          cases findComp components j with
          | none => rfl
          | some c =>
            simp only [Option.map_some']
            by_cases hk : (c.focusKey == fromComponent.parentFocusKey) = true
            · rw [if_pos hk]; rfl
            · rw [if_neg hk]

/-- Iterated `parentFocusKey` lookup: the key reached after `n` climbs from
`focusKey` (`none` when an intermediate key is unregistered). -/
def parentIterate (components : Components) : Nat → String → Option String
  | 0, focusKey => some focusKey
  | n + 1, focusKey =>
    match findComp components focusKey with
    | some c => parentIterate components n c.parentFocusKey
    | none => none

/-- `parentIterate` ignores `lastFocusedChildKey` writes. -/
theorem parentIterate_saveLast (components : Components) (a b : String) :
    ∀ n focusKey, parentIterate (saveLastFocusedChildKey components a b) n focusKey =
      parentIterate components n focusKey := by
  intro n
  induction n with
  | zero => intro focusKey; rfl
  | succ n ih =>
    intro focusKey
    rw [parentIterate, parentIterate, findComp_saveLast]
    cases findComp components focusKey with
    | none => rfl
    | some c =>
      simp only [Option.map_some']
      by_cases hk : c.focusKey == a
      · rw [if_pos hk]; exact ih _
      · rw [if_neg hk]; exact ih _

/-- C2, amended. Any selection made by `smartNavigate` is valid at the climb
level where it was made: when the run starting at the origin selects
`selectedKey`, there is some iterated parent `levelKey` of the origin (the
origin itself when no climbing happened) whose component is not a focus
boundary, and the selected component is a store member passing the full
eligibility check `isNodeFocusableB` against that component — it is
focusable, is not that component, shares that component's `parentFocusKey`,
and satisfies the strict facing-edge check for the direction. (The original
claim asserted this against the origin itself, which fails once the
algorithm climbs; see the counterexample.) -/
theorem claim_C2 : ∀ fuel components direction focusKey components' selectedKey,
    smartNavigateFuel fuel components direction focusKey =
      some (components', some selectedKey) →
    ∃ n levelKey fromComponent selectedComponent,
      parentIterate components n focusKey = some levelKey ∧
      findComp components' levelKey = some fromComponent ∧
      selectedComponent ∈ components' ∧
      selectedComponent.focusKey = selectedKey ∧
      fromComponent.isFocusBoundary = false ∧
      isNodeFocusableB direction fromComponent selectedComponent = true := by
  intro fuel
  induction fuel with
  | zero =>
    intro components direction focusKey components' selectedKey h
    exact absurd h (by simp [smartNavigateFuel])
  | succ fuel ih =>
    intro components direction focusKey components' selectedKey h
    rw [smartNavigateFuel] at h
    cases hfc : findComp components focusKey with
    | none => rw [hfc] at h; simp at h
    | some fromComponent =>
      rw [hfc] at h
      dsimp only at h
      by_cases hb : fromComponent.isFocusBoundary = true
      · rw [if_pos hb] at h; simp at h
      · rw [if_neg hb] at h
        cases hh : (sortSiblingsByPriority
            (components.filter (fun c => isNodeFocusableB direction fromComponent c))
            fromComponent.layout direction).head? with
        | some nextComponent =>
          rw [hh] at h
          obtain ⟨hcs, hsel⟩ : components = components' ∧
              nextComponent.focusKey = selectedKey := by
            cases h; exact ⟨rfl, rfl⟩
          subst hcs
          have hmem : nextComponent ∈ sortSiblingsByPriority
              (components.filter (fun c => isNodeFocusableB direction fromComponent c))
              fromComponent.layout direction :=
            List.mem_of_mem_head? (Option.mem_def.mpr hh)
          have hmem' : nextComponent ∈
              components.filter (fun c => isNodeFocusableB direction fromComponent c) :=
            (List.perm_insertionSort _ _).mem_iff.mp hmem
          rw [List.mem_filter] at hmem'
          refine ⟨0, focusKey, fromComponent, nextComponent, rfl, hfc, hmem'.1,
            hsel, ?_, hmem'.2⟩
          simpa using hb
        | none =>
          rw [hh] at h
          obtain ⟨n, levelKey, fc, sc, hit, hfind, hmem, hkey, hbnd, helig⟩ :=
            ih _ direction fromComponent.parentFocusKey components' selectedKey h
          refine ⟨n + 1, levelKey, fc, sc, ?_, hfind, hmem, hkey, hbnd, helig⟩
          rw [parentIterate, hfc]
          rw [parentIterate_saveLast] at hit
          exact hit

def c2A : Component :=
  { focusKey := "A", node := "A", parentFocusKey := "P", focusable := true,
    isFocusBoundary := false, saveLastFocusedChild := true, trackChildren := false,
    autoRestoreFocus := false, preferredChildFocusKey := none,
    lastFocusedChildKey := none, layout := ⟨0, 0, 10, 10⟩, layoutUpdated := true }

def c2P : Component :=
  { c2A with focusKey := "P", node := "P", parentFocusKey := "SN:ROOT" }

def c2B : Component :=
  { c2A with
    focusKey := "B"
    node := "B"
    parentFocusKey := "SN:ROOT"
    layout := ⟨20, 0, 10, 10⟩ }

/-- Counterexample to C2 as stated: origin `A` (inside container `P`) has no
eligible sibling, the algorithm climbs to `P` and selects `B`; but `B`'s
parent is the root, not `A`'s parent `P` — the selected node does not share
the origin's parent. -/
theorem claim_C2_counterexample :
    (smartNavigateFuel 5 [c2A, c2P, c2B] .right "A").map (fun r => r.2) =
      some (some "B") ∧
    (findComp [c2A, c2P, c2B] "B").map (·.parentFocusKey) = some "SN:ROOT" ∧
    (findComp [c2A, c2P, c2B] "A").map (·.parentFocusKey) = some "P" ∧
    "SN:ROOT" ≠ "P" := by
  refine ⟨?_, ?_, ?_, ?_⟩ <;> with_unfolding_all decide

/-- Witness for C2 (amended) on the climb scenario: the selection of `B` is
valid at some iterated parent of the origin `A`. -/
theorem claim_C2_witness :
    ∃ n levelKey fromComponent selectedComponent,
      parentIterate [c2A, c2P, c2B] n "A" = some levelKey ∧
      findComp (saveLastFocusedChildKey [c2A, c2P, c2B] "P" "A") levelKey =
        some fromComponent ∧
      selectedComponent ∈ saveLastFocusedChildKey [c2A, c2P, c2B] "P" "A" ∧
      selectedComponent.focusKey = "B" ∧
      fromComponent.isFocusBoundary = false ∧
      isNodeFocusableB .right fromComponent selectedComponent = true :=
  claim_C2 5 [c2A, c2P, c2B] .right "A"
    (saveLastFocusedChildKey [c2A, c2P, c2B] "P" "A") "B"
    (by with_unfolding_all decide)

/-! ### Claim C4: leaf resolution -/

/-- Forget the `layout` field (the only component field the layout refresh
inside `getNextFocusKey` writes). -/
def eraseLayout (c : Component) : Component := { c with layout := ⟨0, 0, 0, 0⟩ }

theorem findComp_map_eraseLayout (components : Components) (j : String) :
    findComp (components.map eraseLayout) j = (findComp components j).map eraseLayout :=
  findComp_map components eraseLayout (fun _ => rfl) j

theorem childrenOf_map_eraseLayout (components : Components) (j : String) :
    childrenOf (components.map eraseLayout) j = (childrenOf components j).map eraseLayout := by
  unfold childrenOf
  rw [List.filter_map]
  rfl

/-- `updateLayout` either leaves the store unchanged or rewrites the layout
of the addressed component. -/
theorem updateLayout_eq_or (measure : String → Layout) (components : Components)
    (k : String) :
    updateLayout measure components k = components ∨
    updateLayout measure components k =
      mapComp components k (fun c => { c with layout := measure c.node }) := by
  unfold updateLayout updateLayoutRun
  cases findComp components k with
  | none => left; rfl
  | some c =>
    dsimp only
    by_cases hc : c.layoutUpdated = true
    · rw [if_pos hc]; left; rfl
    · rw [if_neg hc]; right; rfl

theorem mapComp_map_eraseLayout (components : Components) (k : String)
    (measure : String → Layout) :
    (mapComp components k (fun c => { c with layout := measure c.node })).map eraseLayout =
      components.map eraseLayout := by
  unfold mapComp
  rw [List.map_map]
  apply List.map_congr_left
  intro c _
  show eraseLayout (if c.focusKey == k then _ else c) = eraseLayout c
  by_cases h : (c.focusKey == k) = true
  · rw [if_pos h]; rfl
  · rw [if_neg h]

theorem updateLayout_map_eraseLayout (measure : String → Layout)
    (components : Components) (k : String) :
    (updateLayout measure components k).map eraseLayout = components.map eraseLayout := by
  rcases updateLayout_eq_or measure components k with h | h <;> rw [h]
  exact mapComp_map_eraseLayout components k measure

theorem foldl_updateLayout_map_eraseLayout (measure : String → Layout)
    (l : List Component) : ∀ components : Components,
    ((l.foldl (fun acc c => updateLayout measure acc c.focusKey) components)).map
        eraseLayout =
      components.map eraseLayout := by
  induction l with
  | nil => intro components; rfl
  | cons a l ih =>
    intro components
    rw [List.foldl_cons, ih, updateLayout_map_eraseLayout]

/-- Two stores with the same skeleton (everything but layouts) agree on
lookups up to layouts. -/
theorem skeleton_findComp {components' components : Components}
    (h : components'.map eraseLayout = components.map eraseLayout) (j : String) :
    (findComp components' j).map eraseLayout = (findComp components j).map eraseLayout := by
  rw [← findComp_map_eraseLayout, ← findComp_map_eraseLayout, h]

theorem skeleton_childrenOf_length {components' components : Components}
    (h : components'.map eraseLayout = components.map eraseLayout) (j : String) :
    (childrenOf components' j).length = (childrenOf components j).length := by
  have h1 := congrArg (fun l => (childrenOf l j).length) h
  simpa [childrenOf_map_eraseLayout] using h1

/-- An empty coordinate pick means there were no children. -/
theorem getChildClosestToOrigin_eq_none {l : List Component}
    (h : getChildClosestToOrigin l = none) : l = [] := by
  unfold getChildClosestToOrigin at h
  rcases hs : List.insertionSort closestLE l with _ | ⟨a, t⟩
  · have hperm := List.perm_insertionSort closestLE l
    rw [hs] at hperm
    exact hperm.symm.eq_nil
  · rw [hs] at h
    simp at h

/-- With unique keys, a member is found under its own key. -/
theorem findComp_of_mem_nodup {components : Components} {c : Component}
    (hmem : c ∈ components) (hnd : (components.map Component.focusKey).Nodup) :
    findComp components c.focusKey = some c := by
  induction components with
  | nil => cases hmem
  | cons a l ih =>
    rcases List.mem_cons.mp hmem with rfl | hmem'
    · simp [findComp, List.find?_cons]
    · have hne : a.focusKey ≠ c.focusKey := by
        intro he
        have : c.focusKey ∈ l.map Component.focusKey :=
          List.mem_map_of_mem Component.focusKey hmem'
        rw [← he] at this
        exact (List.nodup_cons.mp hnd).1 this
      have := ih hmem' (List.nodup_cons.mp hnd).2
      simpa [findComp, List.find?_cons, hne] using this

/-- A `leafNext` step preserves the skeleton. -/
theorem leafNext_skeleton {measure : String → Layout} {components : Components}
    {focusKey : String} {components₁ : Components} {nextKey : String}
    (h : leafNext measure components focusKey = .step components₁ nextKey) :
    components₁.map eraseLayout = components.map eraseLayout := by
  unfold leafNext at h
  cases hfc : findComp components focusKey with
  | none => rw [hfc] at h; cases h
  | some targetComponent =>
    rw [hfc] at h
    dsimp only at h
    by_cases hemp : (childrenOf components focusKey).isEmpty = true
    · rw [if_pos hemp] at h; cases h
    · rw [if_neg hemp] at h
      cases hlg : lastFocusedGuard components targetComponent with
      | some k => rw [hlg] at h; cases h; rfl
      | none =>
        rw [hlg] at h
        cases hpg : preferredGuard components targetComponent with
        | some k => rw [hpg] at h; cases h; rfl
        | none =>
          rw [hpg] at h
          cases hcl : getChildClosestToOrigin
              (childrenOf
                ((childrenOf components focusKey).foldl
                  (fun acc c => updateLayout measure acc c.focusKey) components)
                focusKey) with
          | some child =>
            rw [hcl] at h
            cases h
            exact foldl_updateLayout_map_eraseLayout measure _ components
          | none => rw [hcl] at h; cases h

/-- `leafNext` never returns `.ret` except when the target is unregistered or
has no focusable children. -/
theorem leafNext_ret_cases {measure : String → Layout} {components : Components}
    {focusKey : String}
    (h : leafNext measure components focusKey = .ret) :
    findComp components focusKey = none ∨ childrenOf components focusKey = [] := by
  unfold leafNext at h
  cases hfc : findComp components focusKey with
  | none => exact Or.inl rfl
  | some targetComponent =>
    rw [hfc] at h
    dsimp only at h
    by_cases hemp : (childrenOf components focusKey).isEmpty = true
    · exact Or.inr (List.isEmpty_iff.mp hemp)
    · rw [if_neg hemp] at h
      cases hlg : lastFocusedGuard components targetComponent with
      | some k => rw [hlg] at h; cases h
      | none =>
        rw [hlg] at h
        cases hpg : preferredGuard components targetComponent with
        | some k => rw [hpg] at h; cases h
        | none =>
          rw [hpg] at h
          cases hcl : getChildClosestToOrigin
              (childrenOf
                ((childrenOf components focusKey).foldl
                  (fun acc c => updateLayout measure acc c.focusKey) components)
                focusKey) with
          | some child => rw [hcl] at h; cases h
          | none => rw [hcl] at h; cases h

/-- A successful `lastFocusedChildKey` guard certifies a live focusable
participant. -/
theorem lastFocusedGuard_participating {components : Components}
    {targetComponent : Component} {k : String}
    (h : lastFocusedGuard components targetComponent = some k) :
    isParticipatingFocusableComponent components k = true := by
  unfold lastFocusedGuard at h
  cases hl : targetComponent.lastFocusedChildKey with
  | none => rw [hl] at h; cases h
  | some k' =>
    rw [hl] at h
    dsimp only at h
    by_cases hc : (targetComponent.saveLastFocusedChild &&
        isParticipatingFocusableComponent components k') = true
    · rw [if_pos hc] at h
      cases h
      exact (Bool.and_eq_true _ _ |>.mp hc).2
    · rw [if_neg hc] at h; cases h

/-- A successful `preferredChildFocusKey` guard certifies a live focusable
participant. -/
theorem preferredGuard_participating {components : Components}
    {targetComponent : Component} {k : String}
    (h : preferredGuard components targetComponent = some k) :
    isParticipatingFocusableComponent components k = true := by
  unfold preferredGuard at h
  cases hl : targetComponent.preferredChildFocusKey with
  | none => rw [hl] at h; cases h
  | some k' =>
    rw [hl] at h
    dsimp only at h
    by_cases hc : isParticipatingFocusableComponent components k' = true
    · rw [if_pos hc] at h; cases h; exact hc
    · rw [if_neg hc] at h; cases h

/-- The coordinate pick returns a member of the child list. -/
theorem getChildClosestToOrigin_mem {l : List Component} {c : Component}
    (h : getChildClosestToOrigin l = some c) : c ∈ l :=
  (List.perm_insertionSort closestLE l).mem_iff.mp
    (List.mem_of_mem_head? (Option.mem_def.mpr h))

/-- Skeleton equality preserves the key list. -/
theorem keys_of_skeleton {components' components : Components}
    (h : components'.map eraseLayout = components.map eraseLayout) :
    components'.map Component.focusKey = components.map Component.focusKey := by
  have h1 := congrArg (List.map Component.focusKey) h
  rw [List.map_map, List.map_map] at h1
  exact h1

/-- Membership in a child list. -/
theorem childrenOf_mem {components : Components} {k : String} {c : Component}
    (h : c ∈ childrenOf components k) :
    c ∈ components ∧ (c.parentFocusKey == k && c.focusable) = true := by
  unfold childrenOf at h
  exact List.mem_filter.mp h

/-- The impossible branch: `leafNext` is never stuck. -/
theorem leafNext_ne_stuck (measure : String → Layout) (components : Components)
    (focusKey : String) : leafNext measure components focusKey ≠ .stuck := by
  intro h
  unfold leafNext at h
  cases hfc : findComp components focusKey with
  | none => rw [hfc] at h; cases h
  | some targetComponent =>
    rw [hfc] at h
    dsimp only at h
    by_cases hemp : (childrenOf components focusKey).isEmpty = true
    · rw [if_pos hemp] at h; cases h
    · rw [if_neg hemp] at h
      cases hlg : lastFocusedGuard components targetComponent with
      | some k => rw [hlg] at h; cases h
      | none =>
        rw [hlg] at h
        cases hpg : preferredGuard components targetComponent with
        | some k => rw [hpg] at h; cases h
        | none =>
          rw [hpg] at h
          cases hcl : getChildClosestToOrigin
              (childrenOf
                ((childrenOf components focusKey).foldl
                  (fun acc c => updateLayout measure acc c.focusKey) components)
                focusKey) with
          | some child => rw [hcl] at h; cases h
          | none =>
            have hnil := getChildClosestToOrigin_eq_none hcl
            have hlen := skeleton_childrenOf_length
              (foldl_updateLayout_map_eraseLayout measure
                (childrenOf components focusKey) components) focusKey
            rw [hnil] at hlen
            have : (childrenOf components focusKey) = [] :=
              List.length_eq_zero.mp hlen.symm
            rw [← List.isEmpty_iff] at this
            exact hemp this

/-- C4, amended. Leaf resolution recurses only into live focusable
participants: the `lastFocusedChildKey` and `preferredChildFocusKey` guards
require exactly that (so a stale pointer falls through to the next policy,
ending at the coordinate-based pick), and the coordinate branch picks a
focusable child of the target. The claim's unconditional termination fails
on representable stores (see the counterexample, a self-parented
registration); termination holds under the added hypothesis that some depth
measure decreases across every recursion step taken from a store with the
same skeleton (which is how the spec's own acyclicity reasoning is meant to
apply), and a terminating run ends at a key that is unregistered or has no
focusable children. -/
theorem claim_C4 :
    (∀ (measure : String → Layout) components focusKey components₁ nextKey,
        (components.map Component.focusKey).Nodup →
        leafNext measure components focusKey = .step components₁ nextKey →
        isParticipatingFocusableComponent components₁ nextKey = true) ∧
    (∀ (measure : String → Layout) components focusKey,
        leafNext measure components focusKey ≠ .stuck) ∧
    (∀ (measure : String → Layout) components focusKey (d : String → Nat),
        (∀ components' j components₁ u,
            components'.map eraseLayout = components.map eraseLayout →
            leafNext measure components' j = .step components₁ u → d u < d j) →
        ∀ fuel, d focusKey < fuel →
          ∃ components' resultKey,
            getNextFocusKeyFuel measure fuel components focusKey =
              some (components', resultKey) ∧
            (findComp components' resultKey = none ∨
              childrenOf components' resultKey = [])) := by
  refine ⟨?_, leafNext_ne_stuck, ?_⟩
  · intro measure components focusKey components₁ nextKey hnd h
    unfold leafNext at h
    cases hfc : findComp components focusKey with
    | none => rw [hfc] at h; cases h
    | some targetComponent =>
      rw [hfc] at h
      dsimp only at h
      by_cases hemp : (childrenOf components focusKey).isEmpty = true
      · rw [if_pos hemp] at h; cases h
      · rw [if_neg hemp] at h
        cases hlg : lastFocusedGuard components targetComponent with
        | some k => rw [hlg] at h; cases h; exact lastFocusedGuard_participating hlg
        | none =>
          rw [hlg] at h
          cases hpg : preferredGuard components targetComponent with
          | some k => rw [hpg] at h; cases h; exact preferredGuard_participating hpg
          | none =>
            rw [hpg] at h
            cases hcl : getChildClosestToOrigin
                (childrenOf
                  ((childrenOf components focusKey).foldl
                    (fun acc c => updateLayout measure acc c.focusKey) components)
                  focusKey) with
            | some child =>
              rw [hcl] at h
              cases h
              have hmem := childrenOf_mem (getChildClosestToOrigin_mem hcl)
              have hkeys : (((childrenOf components focusKey).foldl
                  (fun acc c => updateLayout measure acc c.focusKey) components).map
                    Component.focusKey).Nodup := by
                rw [keys_of_skeleton
                  (foldl_updateLayout_map_eraseLayout measure _ components)]
                exact hnd
              have hfind := findComp_of_mem_nodup hmem.1 hkeys
              unfold isParticipatingFocusableComponent
              rw [hfind]
              exact (Bool.and_eq_true _ _ |>.mp hmem.2).2
            | none => rw [hcl] at h; cases h
  · intro measure components focusKey d hd
    suffices haux : ∀ fuel components' k,
        components'.map eraseLayout = components.map eraseLayout → d k < fuel →
        ∃ components'' r, getNextFocusKeyFuel measure fuel components' k =
          some (components'', r) ∧
          (findComp components'' r = none ∨ childrenOf components'' r = []) by
      intro fuel hfuel
      exact haux fuel components focusKey rfl hfuel
    intro fuel
    induction fuel with
    | zero => intro components' k _ hk; exact absurd hk (Nat.not_lt_zero _)
    | succ fuel ih =>
      intro components' k hskel hk
      rw [getNextFocusKeyFuel]
      cases hstep : leafNext measure components' k with
      | ret => exact ⟨components', k, rfl, leafNext_ret_cases hstep⟩
      | step components₁ u =>
        have hlt := hd components' k components₁ u hskel hstep
        have hskel₁ : components₁.map eraseLayout = components.map eraseLayout :=
          (leafNext_skeleton hstep).trans hskel
        exact ih components₁ u hskel₁ (by omega)
      | stuck => exact absurd hstep (leafNext_ne_stuck measure components' k)

/-- A self-parented registration: `addFocusable` accepts a descriptor whose
`parentFocusKey` equals its own `focusKey`, and `getNextFocusKey` then loops
through the coordinate branch forever. -/
def c4Cyc : Component :=
  { focusKey := "A", node := "A", parentFocusKey := "A", focusable := true,
    isFocusBoundary := false, saveLastFocusedChild := true, trackChildren := false,
    autoRestoreFocus := false, preferredChildFocusKey := none,
    lastFocusedChildKey := none, layout := ⟨0, 0, 0, 0⟩, layoutUpdated := true }

def mC4 : String → Layout := fun _ => ⟨0, 0, 0, 0⟩

theorem c4_loop : ∀ fuel, getNextFocusKeyFuel mC4 fuel [c4Cyc] "A" = none := by
  have hstep : leafNext mC4 [c4Cyc] "A" = .step [c4Cyc] "A" := by
    with_unfolding_all decide
  intro fuel
  induction fuel with
  | zero => rfl
  | succ fuel ih =>
    rw [getNextFocusKeyFuel, hstep]
    exact ih

/-- Counterexample to C4 as stated: on the store holding only the
self-parented component `A`, the resolver's recursion step maps `A` back to
`A` (its only focusable child is itself), so `getNextFocusKey("A")` never
terminates — no amount of fuel produces a result. -/
theorem claim_C4_counterexample :
    leafNext mC4 [c4Cyc] "A" = .step [c4Cyc] "A" ∧
    ¬ ∃ fuel result, getNextFocusKeyFuel mC4 fuel [c4Cyc] "A" = some result := by
  constructor
  · with_unfolding_all decide
  · rintro ⟨fuel, result, hrun⟩
    rw [c4_loop fuel] at hrun
    cases hrun

def c4X : Component :=
  { focusKey := "X", node := "X", parentFocusKey := "SN:ROOT", focusable := true,
    isFocusBoundary := false, saveLastFocusedChild := true, trackChildren := false,
    autoRestoreFocus := false, preferredChildFocusKey := none,
    lastFocusedChildKey := none, layout := ⟨0, 0, 0, 0⟩, layoutUpdated := true }

/-- Witness for C4 (amended): on the single-component store the constant
measure works (no recursion step exists from any skeleton-equal store), and
resolution terminates at `X`, which has no focusable children. -/
theorem claim_C4_witness :
    ∃ components' resultKey,
      getNextFocusKeyFuel mC4 1 [c4X] "X" = some (components', resultKey) ∧
      (findComp components' resultKey = none ∨ childrenOf components' resultKey = []) := by
  refine claim_C4.2.2 mC4 [c4X] "X" (fun _ => 0) ?_ 1 (by decide)
  intro components' j components₁ u hskel hstep
  exfalso
  cases components' with
  | nil => simp [leafNext, findComp] at hstep
  | cons c t =>
    cases t with
    | cons c2 t2 => simp [eraseLayout] at hskel
    | nil =>
      simp only [List.map_cons, List.map_nil, List.cons.injEq, and_true] at hskel
      have hkey : c.focusKey = "X" := congrArg Component.focusKey hskel
      have hpar : c.parentFocusKey = "SN:ROOT" := congrArg Component.parentFocusKey hskel
      unfold leafNext at hstep
      cases hfc : findComp [c] j with
      | none => rw [hfc] at hstep; cases hstep
      | some targetComponent =>
        rw [hfc] at hstep
        dsimp only at hstep
        have hj : c.focusKey = j := by
          by_cases hcj : (c.focusKey == j) = true
          · exact beq_iff_eq.mp hcj
          · have hcj' : (c.focusKey == j) = false := by simpa using hcj
            simp [findComp, List.find?, hcj'] at hfc
        have hchildren : childrenOf [c] j = [] := by
          unfold childrenOf
          have : (c.parentFocusKey == j && c.focusable) = false := by
            rw [hpar, ← hj, hkey]
            simp
          simp [List.filter, this]
        rw [hchildren] at hstep
        simp at hstep

/-! ### Claim C5: focusing the already-focused key -/

/-- `updateLayout` is the identity for an unregistered key. -/
theorem updateLayout_not_found (measure : String → Layout) {components : Components}
    {k : String} (h : findComp components k = none) :
    updateLayout measure components k = components := by
  unfold updateLayout updateLayoutRun
  rw [h]

/-- C5, amended. When the key committed by `setCurrentFocusedKey` equals the
current focus key, no blur-side effects happen: no `onUpdateFocus(false)`, no
`onBlur`, no `lastFocusedChildKey` write, and the focus key is unchanged —
but, contrary to the original claim's "fire no callbacks", the focus-side
block still runs: when the component is registered it is re-measured and
`onUpdateFocus(true)` and `onFocus` fire again. -/
theorem claim_C5 : ∀ (measure : String → Layout) (st : NavState) (focusKey : String),
    st.focusKey = some focusKey →
    setCurrentFocusedKey measure st focusKey =
      ({ st with
          components := updateLayout measure st.components focusKey
          focusKey := some focusKey },
        if (findComp st.components focusKey).isSome then
          [Ev.updateFocus focusKey true, Ev.onFocus focusKey]
        else []) := by
  intro measure st focusKey hfk
  unfold setCurrentFocusedKey
  rw [hfk]
  dsimp only
  cases hfc : findComp st.components focusKey with
  | none => simp [hfc, updateLayout_not_found measure hfc]
  | some oldComponent => simp [hfc]

def c5A : Component :=
  { focusKey := "a", node := "a", parentFocusKey := "SN:ROOT", focusable := true,
    isFocusBoundary := false, saveLastFocusedChild := true, trackChildren := false,
    autoRestoreFocus := false, preferredChildFocusKey := none,
    lastFocusedChildKey := none, layout := ⟨0, 0, 0, 0⟩, layoutUpdated := true }

def mC5 : String → Layout := fun _ => ⟨0, 0, 0, 0⟩

def stC5 : NavState :=
  { components := [c5A], focusKey := some "a",
    parentsHavingFocusedChild := [], enabled := true }

/-- Counterexample to C5 as stated: with `a` focused, `setFocus("a")`
resolves to `a` itself (the current focus), yet the call fires
`onUpdateFocus(true)` and `onFocus` on `a` again instead of firing no
callbacks. -/
theorem claim_C5_counterexample :
    (getNextFocusKeyFuel mC5 5 stC5.components "a").map (fun r => r.2) = some "a" ∧
    (setFocus mC5 5 stC5 "a").map (fun r => r.2) =
      some [Ev.updateFocus "a" true, Ev.onFocus "a"] ∧
    (setFocus mC5 5 stC5 "a").map (fun r => r.2) ≠ some [] := by
  refine ⟨?_, ?_, ?_⟩ <;> with_unfolding_all decide

/-- Witness for C5 (amended) at the one-component state. -/
theorem claim_C5_witness :
    setCurrentFocusedKey mC5 stC5 "a" =
      ({ stC5 with
          components := updateLayout mC5 stC5.components "a"
          focusKey := some "a" },
        if (findComp stC5.components "a").isSome then
          [Ev.updateFocus "a" true, Ev.onFocus "a"]
        else []) :=
  claim_C5 mC5 stC5 "a" rfl

/-! ### Claim C6: unknown ids -/

/-- Leaf resolution of an unregistered key returns that key unchanged (it is
then committed as the focus key by `setFocus`). -/
theorem getNextFocusKey_unknown (measure : String → Layout) (fuel : Nat)
    {components : Components} {focusKey : String}
    (h : findComp components focusKey = none) :
    getNextFocusKeyFuel measure (fuel + 1) components focusKey =
      some (components, focusKey) := by
  have hret : leafNext measure components focusKey = .ret := by
    unfold leafNext
    rw [h]
  rw [getNextFocusKeyFuel, hret]

/-- Absence of a key survives `mapComp`. -/
theorem findComp_mapComp_none {components : Components} {j : String}
    (k : String) (f : Component → Component) (hf : ∀ c, (f c).focusKey = c.focusKey)
    (h : findComp components j = none) :
    findComp (mapComp components k f) j = none := by
  rw [findComp_mapComp components k f hf j, h]
  rfl

/-- Absence of a key survives `updateLayout`. -/
theorem findComp_updateLayout_none (measure : String → Layout)
    {components : Components} {j : String} (k : String)
    (h : findComp components j = none) :
    findComp (updateLayout measure components k) j = none := by
  rcases updateLayout_eq_or measure components k with he | he
  · rw [he]; exact h
  · rw [he]; exact findComp_mapComp_none k _ (fun c => rfl) h

/-- One leave-side step appends only `onBlur` and
`updateHasFocusedChild _ false` events. -/
theorem intermediateBlurStep_events (measure : String → Layout)
    (acc : Components × List Ev) (k : String) (e : Ev)
    (he : e ∈ (intermediateBlurStep measure acc k).2) :
    e ∈ acc.2 ∨ e = Ev.onBlur k ∨ e = Ev.updateHasFocusedChild k false := by
  unfold intermediateBlurStep at he
  dsimp only at he
  by_cases hp : isParticipatingFocusableComponent acc.1 k = true
  · rw [if_pos hp] at he
    dsimp only at he
    rcases List.mem_append.mp he with he₁ | he₁
    · cases hfc : findComp acc.1 k with
      | none => rw [hfc] at he₁; exact Or.inl he₁
      | some p =>
        rw [hfc] at he₁
        dsimp only at he₁
        by_cases ht : p.trackChildren = true
        · rw [if_pos ht] at he₁
          rcases List.mem_append.mp he₁ with he₂ | he₂
          · exact Or.inl he₂
          · right; right; simpa using he₂
        · rw [if_neg ht] at he₁; exact Or.inl he₁
    · right; left; simpa using he₁
  · rw [if_neg hp] at he
    dsimp only at he
    cases hfc : findComp acc.1 k with
    | none => rw [hfc] at he; exact Or.inl he
    | some p =>
      rw [hfc] at he
      dsimp only at he
      by_cases ht : p.trackChildren = true
      · rw [if_pos ht] at he
        rcases List.mem_append.mp he with he₂ | he₂
        · exact Or.inl he₂
        · right; right; simpa using he₂
      · rw [if_neg ht] at he; exact Or.inl he

/-- Events of the whole leave-side fold are only `onBlur` and
`updateHasFocusedChild _ false` (beyond the accumulator). -/
theorem blurFold_events (measure : String → Layout) :
    ∀ (keys : List String) (acc : Components × List Ev) (e : Ev),
      e ∈ (keys.foldl (intermediateBlurStep measure) acc).2 →
      e ∈ acc.2 ∨ (∃ k, e = Ev.onBlur k) ∨
        (∃ k, e = Ev.updateHasFocusedChild k false) := by
  intro keys
  induction keys with
  | nil => intro acc e he; exact Or.inl he
  | cons k keys ih =>
    intro acc e he
    rw [List.foldl_cons] at he
    rcases ih _ e he with hacc | hrest
    · rcases intermediateBlurStep_events measure acc k e hacc with h₁ | h₁ | h₁
      · exact Or.inl h₁
      · exact Or.inr (Or.inl ⟨k, h₁⟩)
      · exact Or.inr (Or.inr ⟨k, h₁⟩)
    · exact Or.inr hrest

/-- The blur-side commit of `setCurrentFocusedKey` toward an unregistered
key. -/
theorem setCurrentFocused_blur {measure : String → Layout} {st : NavState}
    {focusKey oldKey : String} {oldComponent : Component}
    (hfk : st.focusKey = some oldKey)
    (hold : findComp st.components oldKey = some oldComponent)
    (hne : focusKey ≠ oldKey)
    (hunk : findComp st.components focusKey = none) :
    setCurrentFocusedKey measure st focusKey =
      ({ st with
          components := updateLayout measure
            (saveLastFocusedChildKey st.components oldComponent.parentFocusKey oldKey)
            oldKey
          focusKey := some focusKey },
        [Ev.updateFocus oldKey false, Ev.onBlur oldKey]) := by
  have habs : findComp (updateLayout measure
      (saveLastFocusedChildKey st.components oldComponent.parentFocusKey oldKey) oldKey)
      focusKey = none := by
    apply findComp_updateLayout_none
    unfold saveLastFocusedChildKey
    exact findComp_mapComp_none _ _ (fun c => rfl) hunk
  unfold setCurrentFocusedKey
  rw [hfk]
  dsimp only
  rw [hold]
  dsimp only
  rw [if_neg hne]
  dsimp only
  rw [habs]

/-- C6, amended. Unknown ids: `updateFocusable` and `removeFocusable` with an
unregistered key are silent no-ops preserving the store, and leaf resolution
of an unregistered key returns the key itself — but `setFocus` with an
unregistered id is not a no-op: when a registered component holds focus, its
`onUpdateFocus(false)` and `onBlur` fire and the current focus key becomes
the unknown id; no focus-side callback fires on the unknown id. -/
theorem claim_C6 :
    (∀ (measure : String → Layout) fuel components focusKey,
        findComp components focusKey = none →
        getNextFocusKeyFuel measure (fuel + 1) components focusKey =
          some (components, focusKey)) ∧
    (∀ components focusKey payload,
        findComp components focusKey = none →
        updateFocusable components focusKey payload = components) ∧
    (∀ components currentFocusKey focusKey,
        findComp components focusKey = none →
        removeFocusable components currentFocusKey focusKey = (components, none)) ∧
    (∀ (measure : String → Layout) fuel st focusKey oldKey oldComponent st' events,
        st.enabled = true →
        st.focusKey = some oldKey →
        findComp st.components oldKey = some oldComponent →
        findComp st.components focusKey = none →
        focusKey ≠ oldKey →
        setFocus measure (fuel + 1) st focusKey = some (st', events) →
        st'.focusKey = some focusKey ∧
        Ev.updateFocus oldKey false ∈ events ∧
        Ev.onBlur oldKey ∈ events ∧
        Ev.onFocus focusKey ∉ events ∧
        Ev.updateFocus focusKey true ∉ events) := by
  refine ⟨fun measure fuel components focusKey h =>
      getNextFocusKey_unknown measure fuel h, ?_, ?_, ?_⟩
  · intro components focusKey payload h
    unfold updateFocusable
    rw [h]
  · intro components currentFocusKey focusKey h
    unfold removeFocusable
    rw [h]
  · intro measure fuel st focusKey oldKey oldComponent st' events hen hfk hold hunk hne hrun
    unfold setFocus at hrun
    rw [if_neg (show ¬((!st.enabled) = true) by rw [hen]; simp)] at hrun
    rw [getNextFocusKey_unknown measure fuel hunk] at hrun
    dsimp only at hrun
    rw [setCurrentFocused_blur hfk hold hne hunk] at hrun
    dsimp only at hrun
    set cs₂ := updateLayout measure
      (saveLastFocusedChildKey st.components oldComponent.parentFocusKey oldKey)
      oldKey with hcs₂
    have habs₂ : findComp cs₂ focusKey = none := by
      rw [hcs₂]
      apply findComp_updateLayout_none
      unfold saveLastFocusedChildKey
      exact findComp_mapComp_none _ _ (fun c => rfl) hunk
    unfold updateParentsHasFocusedChild at hrun
    rw [habs₂] at hrun
    have hcp : collectParentsAux cs₂ (fuel + 1) none = some [] := rfl
    rw [hcp] at hrun
    simp only [Option.map_some'] at hrun
    try dsimp only at hrun
    rw [hfk] at hrun
    simp only [List.filter_nil, List.foldl_nil] at hrun
    unfold updateParentsLastFocusedChild at hrun
    split at hrun
    · cases hrun
    · rename_i cs₄ hul
      simp only [Option.some_inj, Prod.mk.injEq] at hrun
      obtain ⟨hst', hev⟩ := hrun
      refine ⟨?_, ?_, ?_, ?_, ?_⟩
      · rw [← hst']
      · rw [← hev]
        exact List.mem_append_left _ (List.mem_cons_self _ _)
      · rw [← hev]
        exact List.mem_append_left _ (by simp)
      · rw [← hev]
        intro hmem
        rcases List.mem_append.mp hmem with h₁ | h₁
        · simp at h₁
        · rcases blurFold_events measure _ _ _ h₁ with h₂ | ⟨k, h₂⟩ | ⟨k, h₂⟩
          · simp at h₂
          · cases h₂
          · cases h₂
      · rw [← hev]
        intro hmem
        rcases List.mem_append.mp hmem with h₁ | h₁
        · simp at h₁
        · rcases blurFold_events measure _ _ _ h₁ with h₂ | ⟨k, h₂⟩ | ⟨k, h₂⟩
          · simp at h₂
          · cases h₂
          · cases h₂

def c6A : Component :=
  { focusKey := "a", node := "a", parentFocusKey := "SN:ROOT", focusable := true,
    isFocusBoundary := false, saveLastFocusedChild := true, trackChildren := false,
    autoRestoreFocus := false, preferredChildFocusKey := none,
    lastFocusedChildKey := none, layout := ⟨0, 0, 0, 0⟩, layoutUpdated := true }

def mC6 : String → Layout := fun _ => ⟨0, 0, 0, 0⟩

def stC6 : NavState :=
  { components := [c6A], focusKey := some "a",
    parentsHavingFocusedChild := [], enabled := true }

/-- Counterexample to C6 as stated: `setFocus("unknown")` while `a` is
focused blurs `a` (firing `onUpdateFocus(false)` and `onBlur`) and sets the
current focus key to the unregistered id — neither "focus unchanged" nor "no
callbacks" holds. -/
theorem claim_C6_counterexample :
    (setFocus mC6 5 stC6 "unknown").map (fun r => (r.1.focusKey, r.2)) =
      some (some "unknown", [Ev.updateFocus "a" false, Ev.onBlur "a"]) ∧
    stC6.focusKey = some "a" ∧
    (setFocus mC6 5 stC6 "unknown").map (fun r => r.1.focusKey) ≠
      some stC6.focusKey := by
  refine ⟨?_, rfl, ?_⟩ <;> with_unfolding_all decide

/-- Witness for C6 (amended): leaf resolution returns the unknown key
unchanged and removal with an unknown key is a silent no-op. -/
theorem claim_C6_witness :
    getNextFocusKeyFuel mC6 4 stC6.components "zzz" = some (stC6.components, "zzz") ∧
    removeFocusable stC6.components (some "a") "zzz" = (stC6.components, none) :=
  ⟨claim_C6.1 mC6 3 stC6.components "zzz" (by with_unfolding_all decide),
    claim_C6.2.2.1 stC6.components (some "a") "zzz" (by with_unfolding_all decide)⟩

/-! ### Claim C7: removal -/

/-- Lookup of a different key is unchanged by the deletion filter. -/
theorem findComp_filter_ne (components : Components) (k : String) {j : String}
    (h : j ≠ k) :
    findComp (components.filter (fun c => c.focusKey != k)) j =
      findComp components j := by
  induction components with
  | nil => rfl
  | cons c cs ih =>
    unfold findComp at *
    by_cases hc : (c.focusKey != k) = true
    · have hc' : (fun x : Component => x.focusKey != k) c = true := hc
      rw [List.filter_cons_of_pos (p := fun x : Component => x.focusKey != k) hc']
      by_cases hcj : (c.focusKey == j) = true
      · have hcj' : (fun x : Component => x.focusKey == j) c = true := hcj
        rw [List.find?_cons_of_pos (p := fun x : Component => x.focusKey == j) _ hcj',
          List.find?_cons_of_pos (p := fun x : Component => x.focusKey == j) _ hcj']
      · have hcj' : ¬((fun x : Component => x.focusKey == j) c = true) := hcj
        rw [List.find?_cons_of_neg (p := fun x : Component => x.focusKey == j) _ hcj',
          List.find?_cons_of_neg (p := fun x : Component => x.focusKey == j) _ hcj']
        exact ih
    · have hc' : ¬((fun x : Component => x.focusKey != k) c = true) := hc
      rw [List.filter_cons_of_neg (p := fun x : Component => x.focusKey != k) hc']
      have hck : c.focusKey = k := by simpa using hc
      have hcj : ¬((fun x : Component => x.focusKey == j) c = true) := by
        simp only [beq_iff_eq, hck]
        exact fun hh => h hh.symm
      rw [List.find?_cons_of_neg (p := fun x : Component => x.focusKey == j) _ hcj]
      exact ih

/-- The removed key is gone after the deletion filter. -/
theorem findComp_filter_self (components : Components) (k : String) :
    findComp (components.filter (fun c => c.focusKey != k)) k = none := by
  unfold findComp
  rw [List.find?_eq_none]
  intro c hc
  have := (List.mem_filter.mp hc).2
  simp only [bne_iff_ne, ne_eq] at this
  simp [this]

/-- C7, amended. Removing a registered node deletes it, re-parents its
focusable children to its former parent, and clears a `lastFocusedChildKey`
reference to it only on the former parent — a stale reference held by any
other node is left in place, contrary to the original claim's "anywhere in
the tree" (see the counterexample). A focus transition to the former parent
is triggered exactly when the removed node held the current focus and the
former parent survives with `autoRestoreFocus`. The per-component
characterization below: the parent field is rewritten to the removed node's
former parent exactly for its focusable children, and the
`lastFocusedChildKey` field is cleared exactly on the former parent when it
pointed at the removed key. -/
theorem claim_C7 : ∀ components currentFocusKey focusKey componentToRemove,
    findComp components focusKey = some componentToRemove →
    findComp (removeFocusable components currentFocusKey focusKey).1 focusKey = none ∧
    (∀ j comp, j ≠ focusKey → findComp components j = some comp →
        ∃ comp',
          findComp (removeFocusable components currentFocusKey focusKey).1 j =
            some comp' ∧
          comp'.parentFocusKey =
            (if comp.parentFocusKey = focusKey ∧ comp.focusable = true then
              componentToRemove.parentFocusKey
            else comp.parentFocusKey) ∧
          comp'.lastFocusedChildKey =
            (if j = componentToRemove.parentFocusKey ∧
                comp.lastFocusedChildKey = some focusKey then none
            else comp.lastFocusedChildKey) ∧
          comp'.focusable = comp.focusable) ∧
    ((removeFocusable components currentFocusKey focusKey).2 =
        some componentToRemove.parentFocusKey ↔
      currentFocusKey = some focusKey ∧
      componentToRemove.parentFocusKey ≠ focusKey ∧
      ∃ p, findComp components componentToRemove.parentFocusKey = some p ∧
        p.autoRestoreFocus = true) := by
  intro components currentFocusKey focusKey componentToRemove hfind
  unfold removeFocusable
  rw [hfind]
  dsimp only
  have hkeyrep : ∀ c : Component,
      ((fun c => if c.parentFocusKey == focusKey && c.focusable then
          { c with parentFocusKey := componentToRemove.parentFocusKey }
        else c) c).focusKey = c.focusKey := by
    intro c
    dsimp only
    by_cases hc : (c.parentFocusKey == focusKey && c.focusable) = true
    · rw [if_pos hc]
    · rw [if_neg hc]
  have hfilterself := findComp_filter_self components focusKey
  have htrig : ∀ p : Component,
      findComp (components.filter (fun c => c.focusKey != focusKey))
        componentToRemove.parentFocusKey = some p →
      ((if decide (currentFocusKey = some focusKey) && p.autoRestoreFocus then
          some componentToRemove.parentFocusKey
        else none) = some componentToRemove.parentFocusKey ↔
        currentFocusKey = some focusKey ∧
        componentToRemove.parentFocusKey ≠ focusKey ∧
        ∃ q, findComp components componentToRemove.parentFocusKey = some q ∧
          q.autoRestoreFocus = true) := by
    intro p hpar
    have hpk_ne : componentToRemove.parentFocusKey ≠ focusKey := by
      intro he
      rw [he, hfilterself] at hpar
      cases hpar
    have hpcomp : findComp components componentToRemove.parentFocusKey = some p := by
      rw [← findComp_filter_ne components focusKey hpk_ne]
      exact hpar
    by_cases hc : (decide (currentFocusKey = some focusKey) &&
        p.autoRestoreFocus) = true
    · rw [if_pos hc]
      rcases Bool.and_eq_true _ _ |>.mp hc with ⟨h₁, h₂⟩
      simp only [decide_eq_true_eq] at h₁
      exact ⟨fun _ => ⟨h₁, hpk_ne, p, hpcomp, h₂⟩, fun _ => rfl⟩
    · rw [if_neg hc]
      constructor
      · intro h; cases h
      · intro ⟨h₁, h₂, q, hq, hauto⟩
        exfalso
        rw [hpcomp] at hq
        cases hq
        exact hc (Bool.and_eq_true _ _ |>.mpr ⟨decide_eq_true_eq.mpr h₁, hauto⟩)
  cases hpar : findComp (components.filter (fun c => c.focusKey != focusKey))
      componentToRemove.parentFocusKey with
  | none =>
    refine ⟨?_, ?_, ?_⟩
    · rw [findComp_map _ _ hkeyrep, hfilterself]
      rfl
    · intro j comp hj hcomp
      have hj' : findComp (components.filter (fun c => c.focusKey != focusKey)) j =
          some comp := by rw [findComp_filter_ne components focusKey hj]; exact hcomp
      have hjpk : j ≠ componentToRemove.parentFocusKey := by
        intro he
        rw [he, hpar] at hj'
        cases hj'
      rw [findComp_map _ _ hkeyrep, hj']
      simp only [Option.map_some']
      by_cases hc : (comp.parentFocusKey == focusKey && comp.focusable) = true
      · rcases Bool.and_eq_true _ _ |>.mp hc with ⟨h₁, h₂⟩
        refine ⟨_, rfl, ?_, ?_, ?_⟩ <;>
          simp [hc, beq_iff_eq.mp h₁, h₂, hjpk]
      · have hcp : ¬(comp.parentFocusKey = focusKey ∧ comp.focusable = true) := by
          intro ⟨h₁, h₂⟩
          exact hc (Bool.and_eq_true _ _ |>.mpr ⟨beq_iff_eq.mpr h₁, h₂⟩)
        refine ⟨_, rfl, ?_, ?_, ?_⟩ <;>
          simp [hc, hcp, hjpk]
    · constructor
      · intro h; cases h
      · intro ⟨h₁, h₂, p, hp, hauto⟩
        exfalso
        rw [← findComp_filter_ne components focusKey h₂, hpar] at hp
        cases hp
  | some p =>
    dsimp only
    by_cases hlast : p.lastFocusedChildKey = some focusKey
    · rw [if_pos hlast]
      refine ⟨?_, ?_, htrig p hpar⟩
      · rw [findComp_map _ _ hkeyrep,
          findComp_mapComp _ componentToRemove.parentFocusKey
            (fun c => { c with lastFocusedChildKey := none }) (fun c => rfl),
          hfilterself]
        rfl
      · intro j comp hj hcomp
        have hj' : findComp (components.filter (fun c => c.focusKey != focusKey)) j =
            some comp := by rw [findComp_filter_ne components focusKey hj]; exact hcomp
        rw [findComp_map _ _ hkeyrep,
          findComp_mapComp _ componentToRemove.parentFocusKey
            (fun c => { c with lastFocusedChildKey := none }) (fun c => rfl), hj']
        simp only [Option.map_some']
        by_cases hjpk : j = componentToRemove.parentFocusKey
        · have hcompp : comp = p := by
            rw [hjpk, hpar] at hj'
            cases hj'
            rfl
          have hkeq : (comp.focusKey == componentToRemove.parentFocusKey) = true := by
            rw [beq_iff_eq, findComp_key hj', hjpk]
          by_cases hc : (comp.parentFocusKey == focusKey && comp.focusable) = true
          · rcases Bool.and_eq_true _ _ |>.mp hc with ⟨h₁, h₂⟩
            refine ⟨_, rfl, ?_, ?_, ?_⟩ <;>
              simp [hkeq, hc, beq_iff_eq.mp h₁, h₂, hjpk, hcompp ▸ hlast]
          · have hcp : ¬(comp.parentFocusKey = focusKey ∧ comp.focusable = true) := by
              intro ⟨h₁, h₂⟩
              exact hc (Bool.and_eq_true _ _ |>.mpr ⟨beq_iff_eq.mpr h₁, h₂⟩)
            refine ⟨_, rfl, ?_, ?_, ?_⟩ <;>
              simp [hkeq, hc, hcp, hjpk, hcompp ▸ hlast]
        · have hkne : (comp.focusKey == componentToRemove.parentFocusKey) = false := by
            rw [beq_eq_false_iff_ne, ne_eq, findComp_key hj']
            exact hjpk
          by_cases hc : (comp.parentFocusKey == focusKey && comp.focusable) = true
          · rcases Bool.and_eq_true _ _ |>.mp hc with ⟨h₁, h₂⟩
            refine ⟨_, rfl, ?_, ?_, ?_⟩ <;>
              simp [hkne, hc, beq_iff_eq.mp h₁, h₂, hjpk]
          · have hcp : ¬(comp.parentFocusKey = focusKey ∧ comp.focusable = true) := by
              intro ⟨h₁, h₂⟩
              exact hc (Bool.and_eq_true _ _ |>.mpr ⟨beq_iff_eq.mpr h₁, h₂⟩)
            refine ⟨_, rfl, ?_, ?_, ?_⟩ <;>
              simp [hkne, hc, hcp, hjpk]
    · rw [if_neg hlast]
      refine ⟨?_, ?_, htrig p hpar⟩
      · rw [findComp_map _ _ hkeyrep, hfilterself]
        rfl
      · intro j comp hj hcomp
        have hj' : findComp (components.filter (fun c => c.focusKey != focusKey)) j =
            some comp := by rw [findComp_filter_ne components focusKey hj]; exact hcomp
        rw [findComp_map _ _ hkeyrep, hj']
        simp only [Option.map_some']
        have hnand : ¬(j = componentToRemove.parentFocusKey ∧
            comp.lastFocusedChildKey = some focusKey) := by
          intro ⟨h₁, h₂⟩
          have hcompp : comp = p := by
            rw [h₁, hpar] at hj'
            cases hj'
            rfl
          rw [hcompp] at h₂
          exact hlast h₂
        by_cases hc : (comp.parentFocusKey == focusKey && comp.focusable) = true
        · rcases Bool.and_eq_true _ _ |>.mp hc with ⟨h₁, h₂⟩
          refine ⟨_, rfl, ?_, ?_, ?_⟩ <;>
            simp [hc, beq_iff_eq.mp h₁, h₂, hnand]
        · have hcp : ¬(comp.parentFocusKey = focusKey ∧ comp.focusable = true) := by
            intro ⟨h₁, h₂⟩
            exact hc (Bool.and_eq_true _ _ |>.mpr ⟨beq_iff_eq.mpr h₁, h₂⟩)
          refine ⟨_, rfl, ?_, ?_, ?_⟩ <;>
            simp [hc, hcp, hnand]

def c7X : Component :=
  { focusKey := "X", node := "X", parentFocusKey := "SN:ROOT", focusable := true,
    isFocusBoundary := false, saveLastFocusedChild := true, trackChildren := false,
    autoRestoreFocus := false, preferredChildFocusKey := none,
    lastFocusedChildKey := some "n", layout := ⟨0, 0, 10, 10⟩, layoutUpdated := true }

def c7P : Component :=
  { c7X with
    focusKey := "P"
    node := "P"
    lastFocusedChildKey := none }

def c7N : Component :=
  { c7X with
    focusKey := "n"
    node := "n"
    parentFocusKey := "P"
    lastFocusedChildKey := none }

/-- Counterexample to C7 as stated: `X` is not `n`'s parent but holds a stale
`lastFocusedChildKey = some "n"`. Removing `n` deletes it from the store, yet
`X` still points at the now-unregistered key afterwards — the reference is not
cleared "anywhere in the tree", only on the former parent (`P` here, which
held no such reference). -/
theorem claim_C7_counterexample :
    findComp (removeFocusable [c7X, c7P, c7N] none "n").1 "n" = none ∧
    (findComp (removeFocusable [c7X, c7P, c7N] none "n").1 "X").map
        (·.lastFocusedChildKey) = some (some "n") := by
  constructor
  · with_unfolding_all decide
  · with_unfolding_all decide

/-- Witness for C7 (amended) at a concrete store: the removed key is gone. -/
theorem claim_C7_witness :
    findComp (removeFocusable [c7X, c7P, c7N] none "n").1 "n" = none :=
  (claim_C7 [c7X, c7P, c7N] none "n" c7N (by with_unfolding_all decide)).1

/-! ### Claim C8: update merges only supplied fields -/

/-- C8, amended. `updateFocusable` merges by outright assignment, not by
presence: `preferredChildFocusKey`, `focusable` and `isFocusBoundary` are
taken from the payload whether or not they were supplied — omitting the
optional `preferredChildFocusKey` resets the stored value to `none` — while
`node` is assigned only when supplied; every remaining field of the target
and every other component are untouched. -/
theorem claim_C8 : ∀ components focusKey payload component,
    findComp components focusKey = some component →
    (∃ component',
      findComp (updateFocusable components focusKey payload) focusKey =
        some component' ∧
      component'.preferredChildFocusKey = payload.preferredChildFocusKey ∧
      component'.focusable = payload.focusable ∧
      component'.isFocusBoundary = payload.isFocusBoundary ∧
      component'.node = payload.node.getD component.node ∧
      component'.focusKey = component.focusKey ∧
      component'.parentFocusKey = component.parentFocusKey ∧
      component'.saveLastFocusedChild = component.saveLastFocusedChild ∧
      component'.trackChildren = component.trackChildren ∧
      component'.autoRestoreFocus = component.autoRestoreFocus ∧
      component'.lastFocusedChildKey = component.lastFocusedChildKey ∧
      component'.layout = component.layout ∧
      component'.layoutUpdated = component.layoutUpdated) ∧
    (∀ j, j ≠ focusKey →
      findComp (updateFocusable components focusKey payload) j =
        findComp components j) := by
  intro components focusKey payload component hfind
  have hkeq : (component.focusKey == focusKey) = true :=
    beq_iff_eq.mpr (findComp_key hfind)
  have hf : ∀ c : Component,
      ((fun component : Component =>
        let component₁ :=
          { component with
            preferredChildFocusKey := payload.preferredChildFocusKey
            focusable := payload.focusable
            isFocusBoundary := payload.isFocusBoundary }
        match payload.node with
        | some n => { component₁ with node := n }
        | none => component₁) c).focusKey = c.focusKey := by
    intro c
    cases payload.node <;> rfl
  constructor
  · have hstep : findComp (updateFocusable components focusKey payload) focusKey =
        some ((fun component : Component =>
          let component₁ :=
            { component with
              preferredChildFocusKey := payload.preferredChildFocusKey
              focusable := payload.focusable
              isFocusBoundary := payload.isFocusBoundary }
          match payload.node with
          | some n => { component₁ with node := n }
          | none => component₁) component) := by
      unfold updateFocusable
      rw [hfind]
      dsimp only
      rw [findComp_mapComp _ _ _ hf, hfind]
      simp only [Option.map_some']
      rw [if_pos hkeq]
    refine ⟨_, hstep, ?_⟩
    cases payload.node <;>
      exact ⟨rfl, rfl, rfl, rfl, rfl, rfl, rfl, rfl, rfl, rfl, rfl, rfl⟩
  · intro j hj
    unfold updateFocusable
    rw [hfind]
    dsimp only
    rw [findComp_mapComp _ _ _ hf]
    cases hj' : findComp components j with
    | none => rfl
    | some c =>
      have hck : (c.focusKey == focusKey) = false := by
        rw [beq_eq_false_iff_ne, ne_eq, findComp_key hj']
        exact hj
      simp only [Option.map_some', hck]
      rfl

def c8A : Component :=
  { focusKey := "A", node := "A", parentFocusKey := "SN:ROOT", focusable := true,
    isFocusBoundary := false, saveLastFocusedChild := true, trackChildren := false,
    autoRestoreFocus := false, preferredChildFocusKey := some "p",
    lastFocusedChildKey := none, layout := ⟨0, 0, 10, 10⟩, layoutUpdated := true }

def c8Payload : UpdatePayload :=
  { node := none, preferredChildFocusKey := none, focusable := true,
    isFocusBoundary := false }

/-- Counterexample to C8 as stated: the stored `preferredChildFocusKey` is
`some "p"`, the update payload omits the field (it is optional in
`FocusableComponentUpdatePayload`, so omission arrives as `none`), and after
the update the stored value is `none` — the field was cleared by omission. -/
theorem claim_C8_counterexample :
    c8A.preferredChildFocusKey = some "p" ∧
    (findComp (updateFocusable [c8A] "A" c8Payload) "A").map
        (·.preferredChildFocusKey) = some none := by
  constructor
  · with_unfolding_all decide
  · with_unfolding_all decide

/-- Witness for C8 (amended) at a concrete store: a key other than the
updated one is untouched. -/
theorem claim_C8_witness :
    findComp (updateFocusable [c8A] "A" c8Payload) "B" = findComp [c8A] "B" :=
  (claim_C8 [c8A] "A" c8Payload c8A (by with_unfolding_all decide)).2 "B"
    (by with_unfolding_all decide)

/-! ### Claim C9: layout caching -/

/-- C9, amended. When the node's `layoutUpdated` flag is set, `updateLayout`
returns without querying the provider, as claimed. When it is not set, the
provider is queried and the result stored, but the flag is never set to
`true` afterwards — the method has no `layoutUpdated = true` assignment — so
the "marks valid" part fails and an immediately repeated call queries the
external provider again for the same node. -/
theorem claim_C9 : ∀ (measure : String → Layout) components focusKey component,
    findComp components focusKey = some component →
    (component.layoutUpdated = true →
      updateLayoutRun measure components focusKey = (components, false)) ∧
    (component.layoutUpdated = false →
      updateLayoutRun measure components focusKey =
        (mapComp components focusKey
          (fun c => { c with layout := measure c.node }), true) ∧
      (∃ component',
        findComp (updateLayout measure components focusKey) focusKey =
          some component' ∧
        component'.layout = measure component.node ∧
        component'.layoutUpdated = false) ∧
      (updateLayoutRun measure (updateLayout measure components focusKey)
        focusKey).2 = true) := by
  intro measure components focusKey component hfind
  have hf : ∀ c : Component,
      ((fun c : Component => { c with layout := measure c.node }) c).focusKey =
        c.focusKey :=
    fun c => rfl
  have hkeq : (component.focusKey == focusKey) = true :=
    beq_iff_eq.mpr (findComp_key hfind)
  constructor
  · intro hupd
    unfold updateLayoutRun
    rw [hfind]
    dsimp only
    rw [if_pos hupd]
  · intro hupd
    have hrun : updateLayoutRun measure components focusKey =
        (mapComp components focusKey
          (fun c => { c with layout := measure c.node }), true) := by
      unfold updateLayoutRun
      rw [hfind]
      dsimp only
      rw [if_neg (by rw [hupd]; exact Bool.false_ne_true)]
    have hfind' : findComp (updateLayout measure components focusKey) focusKey =
        some { component with layout := measure component.node } := by
      unfold updateLayout
      rw [hrun]
      dsimp only
      rw [findComp_mapComp _ _ _ hf, hfind]
      simp only [Option.map_some', hkeq]
      rfl
    refine ⟨hrun, ⟨_, hfind', rfl, hupd⟩, ?_⟩
    unfold updateLayoutRun
    rw [hfind']
    dsimp only
    rw [if_neg (by rw [hupd]; exact Bool.false_ne_true)]

def c9A : Component :=
  { focusKey := "A", node := "A", parentFocusKey := "SN:ROOT", focusable := true,
    isFocusBoundary := false, saveLastFocusedChild := true, trackChildren := false,
    autoRestoreFocus := false, preferredChildFocusKey := none,
    lastFocusedChildKey := none, layout := ⟨0, 0, 0, 0⟩, layoutUpdated := false }

def mC9 : String → Layout := fun _ => ⟨1, 2, 3, 4⟩

/-- Counterexample to C9 as stated: `A`'s layout cache is invalid; the first
call queries the provider, yet the second call on the resulting store queries
it again (its flag component of the run is `true` both times) and the stored
`layoutUpdated` is still `false` — the cache is never marked valid, so a node
can be measured more than once in a round. -/
theorem claim_C9_counterexample :
    (updateLayoutRun mC9 [c9A] "A").2 = true ∧
    (updateLayoutRun mC9 (updateLayoutRun mC9 [c9A] "A").1 "A").2 = true ∧
    (findComp (updateLayoutRun mC9 [c9A] "A").1 "A").map (·.layoutUpdated) =
      some false := by
  refine ⟨?_, ?_, ?_⟩
  · with_unfolding_all decide
  · with_unfolding_all decide
  · with_unfolding_all decide

/-- Witness for C9 (amended) at a concrete store: the invalid-cache call
queries the provider and stores the measured layout. -/
theorem claim_C9_witness :
    updateLayoutRun mC9 [c9A] "A" =
      (mapComp [c9A] "A" (fun c => { c with layout := mC9 c.node }), true) :=
  ((claim_C9 mC9 [c9A] "A" c9A (by with_unfolding_all decide)).2
    (by with_unfolding_all decide)).1

end SpatialNav
